import Mathlib

set_option autoImplicit false

/-!
Verification of the incremental GCC build orchestrator
(`targets/toolchain_gcc.py`).

The Python module is shallowly embedded below.  File contents are modelled
as `String`s (byte strings), the filesystem as an association list from
path to content, and the per-session dependency/hash cache `srcmd5` as an
association list from basename to `(digest, direct dependency names)`.
The MD5 content hasher and `shlex.split` are external, deterministic pure
collaborators; they are passed in as function parameters (`hash`,
`shlexSplit`) since no verified property depends on their internals.
External process invocations (the sysroot query, per-unit compilations and
the final link) are modelled by oracle fields of `BuildCtx` giving their
exit behaviour, and each actual invocation is recorded as a `BEvent`.
-/

namespace ToolchainGcc

/-- ASCII whitespace as recognised by Python's regex class `\s` and by
`str.strip` / `str.splitlines` for the common terminators. -/
def isPySpace (c : Char) : Bool :=
  c == ' ' || c == '\t' || c == '\n' || c == '\x0b' || c == '\x0c' || c == '\r'

/-- Line terminators handled by this model of `str.splitlines`. -/
def isLineTerm (c : Char) : Bool :=
  c == '\n' || c == '\r' || c == '\x0b' || c == '\x0c'

/-- Helper for `pySplitlines`: accumulates the current line (reversed);
the flag records that the previous character was `\r`, so the `\n` of a
`\r\n` pair is not a second terminator. -/
def splitLinesAux : List Char → List Char → Bool → List String
  | [], acc, _ => if acc.isEmpty then [] else [String.mk acc.reverse]
  | c :: rest, acc, afterCR =>
    if c == '\n' && afterCR then
      splitLinesAux rest acc false
    else if c == '\r' then
      String.mk acc.reverse :: splitLinesAux rest [] true
    else if c == '\n' || c == '\x0b' || c == '\x0c' then
      String.mk acc.reverse :: splitLinesAux rest [] false
    else
      splitLinesAux rest (c :: acc) false

/-- Python `str.splitlines` (restricted to the ASCII line terminators). -/
def pySplitlines (s : String) : List String :=
  splitLinesAux s.toList [] false

/-- Python `str.strip()` with no argument: remove leading and trailing
whitespace. -/
def pyStrip (s : String) : String :=
  String.mk (((s.toList.dropWhile isPySpace).reverse.dropWhile isPySpace).reverse)

/-- Greedy `\s*`. -/
def dropPySpaces (cs : List Char) : List Char := cs.dropWhile isPySpace

/-- Match a literal character sequence at the front, returning the rest. -/
def stripLiteral : List Char → List Char → Option (List Char)
  | [], cs => some cs
  | _ :: _, [] => none
  | l :: ls, c :: cs => if c == l then stripLiteral ls cs else none

/-- Characters admitted by the capture group `[^">]*` of `includes_re`. -/
def notCloser (c : Char) : Bool := !(c == '"') && !(c == '>')

/-- After the opening delimiter: capture `[^">]*`, then require one
closing character from the class `[">]` (the trailing `.*` of the regex
always matches under `re.match`). -/
def scanIncludeName (cs : List Char) : Option String :=
  match cs.dropWhile notCloser with
  | [] => none
  | _ :: _ => some (String.mk (cs.takeWhile notCloser))

/-- Model of `includes_re.match(line)` for the source regex (line 38)
`\s*#include\s*["<]([^">]*)[">].*`, returning the captured group.
The character classes `["<]` and `[">]` are exactly those of the source:
the opening and closing delimiters are matched independently. -/
def includesMatchLine (line : String) : Option String :=
  match stripLiteral "#include".toList (dropPySpaces line.toList) with
  | none => none
  | some rest =>
    match dropPySpaces rest with
    | [] => none
    | c :: cs => if c == '"' || c == '<' then scanIncludeName cs else none

/-- First-binding-wins association lookup (dict lookup). -/
def assocGet {α : Type} : List (String × α) → String → Option α
  | [], _ => none
  | e :: rest, k => if e.1 == k then some e.2 else assocGet rest k

/-- Filesystem: association list from path to file content (bytes). -/
structure FS where
  entries : List (String × String)
deriving DecidableEq

/-- Read a file's content (`None` when absent). -/
def fsRead (fs : FS) (p : String) : Option String :=
  assocGet fs.entries p

/-- Model of `os.path.exists`. -/
def osPathExists (fs : FS) (p : String) : Bool :=
  (fsRead fs p).isSome

/-- Create or overwrite a file. -/
def fsWrite (fs : FS) (p v : String) : FS :=
  ⟨(p, v) :: fs.entries.filter (fun e => !(e.1 == p))⟩

/-- Model of `os.path.join(a, b)` for a relative second component. -/
def joinPath (a b : String) : String := a ++ "/" ++ b

/-- Model of `os.path.basename`: the part after the last slash. -/
def pyBasename (s : String) : String :=
  String.mk ((s.toList.reverse.takeWhile (· != '/')).reverse)

/-- Root part of Python `os.path.splitext` applied to one path component:
the extension starts at the last dot, except that a run of leading dots
never starts an extension. -/
def rootOfBase (cs : List Char) : List Char :=
  let p := cs.takeWhile (· == '.')
  let q := cs.dropWhile (· == '.')
  if q.contains '.' then
    p ++ ((q.reverse.dropWhile (· != '.')).drop 1).reverse
  else
    p ++ q

/-- Model of `os.path.splitext(s)[0]`. -/
def pySplitextRoot (s : String) : String :=
  let cs := s.toList
  let base := (cs.reverse.takeWhile (· != '/')).reverse
  let dir := (cs.reverse.dropWhile (· != '/')).reverse
  String.mk (dir ++ rootOfBase base)

/-- The per-session cache `self.srcmd5`: basename to
`(digest, direct dependency names)` (spec: DependencyRecord). -/
abbrev Cache := List (String × (String × List String))

/-- Model of `self.srcmd5.get(bn, default)` (first binding wins, as in a dict). -/
def cacheGet (c : Cache) (k : String) : Option (String × List String) :=
  assocGet c k

/-- Model of `self.srcmd5[bn] = v`: overwrite in place, or append a fresh key. -/
def cacheSet : Cache → String → String × List String → Cache
  | [], k, v => [(k, v)]
  | e :: rest, k, v => if e.1 == k then (k, v) :: rest else e :: cacheSet rest k v

/-- Model of `self.srcmd5.pop(bn)`: `none` models the `KeyError` raised when the
key is absent. -/
def cachePop : Cache → String → Option Cache
  | [], _ => none
  | e :: rest, k => if e.1 == k then some rest else (cachePop rest k).map (e :: ·)

/-- One line of the body of `append_cfile_deps` (lines 130-135). -/
def scanLineStep (fs : FS) (buildpath : String) (acc : List String) (l : String) :
    List String :=
  match includesMatchLine l with
  | some depfn =>
    if osPathExists fs (joinPath buildpath depfn) then acc ++ [depfn] else acc
  | none => acc

/-- Source lines 129-135 (`append_cfile_deps`): scan the TEXT `src` line
by line with `includes_re`; names that resolve to an existing file under
the build directory are appended to `deps` in order of appearance. -/
def append_cfile_deps (fs : FS) (buildpath : String) (src : String)
    (deps : List String) : List String :=
  (pySplitlines src).foldl (scanLineStep fs buildpath) deps

/-- The include-directive names a block of text parses to, before the
existence filter (filesystem-independent). -/
def pathIncludeNames (s : String) : List String :=
  (pySplitlines s).filterMap includesMatchLine

/-- The fold `reduce(operator.and_, list(map(rec, deps)), acc)` of line
167, with the cache threaded left to right through the recursive calls
(each call mutates `self.srcmd5` in the source). -/
def andFoldCheck (rec : Cache → String → Option (Bool × Cache)) :
    Cache → List String → Bool → Option (Bool × Cache)
  | c, [], acc => some (acc, c)
  | c, d :: ds, acc =>
    match rec c d with
    | none => none
    | some (r, c') => andFoldCheck rec c' ds (acc && r)

/-- Source lines 147-167 (`check_and_update_hash_and_deps`), fuelled to
make the unguarded recursion (the source has no cycle detection) total;
`none` models non-termination.  NOTE, faithful to the source: line 151
binds `src` to the joined PATH, and line 162 passes that path string —
not the file's text — to `append_cfile_deps` as the text to scan. -/
def cauhdAux (hash : String → String) (fs : FS) (buildpath : String) :
    Nat → Cache → String → Option (Bool × Cache)
  | 0 => fun _ _ => none
  | Nat.succ f => fun cache bn =>
    let entry := cacheGet cache bn
    let oldhash : Option String := entry.map (·.1)
    let deps0 : List String := (entry.map (·.2)).getD []
    let src := joinPath buildpath bn
    if osPathExists fs src then
      let newhash := hash ((fsRead fs src).getD "")
      let mtch : Bool := oldhash == some newhash
      let p : List String × Cache :=
        if mtch then (deps0, cache)
        else
          let d := append_cfile_deps fs buildpath src []
          (d, cacheSet cache bn (newhash, d))
      andFoldCheck (cauhdAux hash fs buildpath f) p.2 p.1 mtch
    else
      some (false, cache)

/-- Wrapper giving `check_and_update_hash_and_deps` its source name, with the fuel parameter explicit. -/
def check_and_update_hash_and_deps (hash : String → String) (fs : FS)
    (buildpath : String) (fuel : Nat) (cache : Cache) (bn : String) :
    Option (Bool × Cache) :=
  cauhdAux hash fs buildpath fuel cache bn

/-- Lookup in `os.environ` (modelled as an association list). -/
def envLookup (env : List (String × String)) (k : String) : Option String :=
  assocGet env k

/-- Source lines 64-73 (`getBuilderCFLAGS`): target default, then the
`CFLAGS` environment value if set, then a `--sysroot=` flag if `SYSROOT`
is set. -/
def getBuilderCFLAGS (env : List (String × String)) (targetCFLAGS : String) :
    List String :=
  [targetCFLAGS]
    ++ (match envLookup env "CFLAGS" with | some v => [v] | none => [])
    ++ (match envLookup env "SYSROOT" with | some v => ["--sysroot=" ++ v] | none => [])

/-- Source lines 75-85 (`getBuilderLDFLAGS`): the instance link flags and
the target default, then — NOTE, faithful to line 81 — the value of the
environment key "LDLAGS" (sic) if set, then `--sysroot=` if `SYSROOT` is
set. -/
def getBuilderLDFLAGS (env : List (String × String)) (ctrLDFLAGS : List String)
    (targetLDFLAGS : String) : List String :=
  (ctrLDFLAGS ++ [targetLDFLAGS])
    ++ (match envLookup env "LDLAGS" with | some v => [v] | none => [])
    ++ (match envLookup env "SYSROOT" with | some v => ["--sysroot=" ++ v] | none => [])

/-- Python `s.endswith(suf)`. -/
def pyEndsWith (s suf : String) : Bool :=
  suf.toList.isSuffixOf s.toList

/-- Helper for `strReplace`; the fuel is an upper bound on the remaining
length, so it never runs out for a non-empty pattern. -/
def replaceAux (pat rep : List Char) : Nat → List Char → List Char
  | 0, cs => cs
  | _, [] => []
  | Nat.succ f, c :: cs =>
    if pat.isPrefixOf (c :: cs) then
      rep ++ replaceAux pat rep f (List.drop (pat.length - 1) cs)
    else
      c :: replaceAux pat rep f cs

/-- Python `s.replace(pat, rep)`: every non-overlapping occurrence, left
to right (for the non-empty patterns used here). -/
def strReplace (s pat rep : String) : String :=
  if pat.isEmpty then s
  else String.mk (replaceAux pat.toList rep.toList s.toList.length s.toList)

/-- Naive substring test over char lists (Python `pattern in s`). -/
def hasSubAux (needle : List Char) : List Char → Bool
  | [] => needle.isEmpty
  | c :: rest => needle.isPrefixOf (c :: rest) || hasSubAux needle rest

/-- Python `needle in hay` for strings. -/
def strHasSub (needle hay : String) : Bool :=
  hasSubAux needle.toList hay.toList

/-- One compilable or prebuilt unit: an entry of `CFilesAndCFLAGS`. -/
structure CUnit where
  cfile : String
  cflags : String
deriving DecidableEq

/-- External process invocations performed by `build`, in order. -/
inductive BEvent where
  | sysrootQuery (argv : List String)
  | compile (cfile : String) (argv : List String)
  | link (argv : List String)
deriving DecidableEq

/-- Everything `build` consumes that is fixed across a call: the target
configuration provider, environment, project descriptor, and the
behaviour of the external collaborators (hasher, tokenizer, processes). -/
structure BuildCtx where
  hash : String → String
  shlexSplit : String → List String
  buildpath : String
  env : List (String × String)
  compiler : String
  linker : String
  targetCFLAGS : String
  targetLDFLAGS : String
  ctrLDFLAGS : List String
  binName : String
  locations : List (List CUnit)
  sysrootOut : Option String
  compileStatus : String → Nat
  linkResult : Option String

/-- The orchestrator's mutable state: the shared build directory plus the
instance fields `srcmd5` and `md5key`. -/
structure World where
  fs : FS
  srcmd5 : Cache
  md5key : Option String
deriving DecidableEq

/-- The argv of line 192's `subprocess.check_output` call: the executable
name is a hardcoded constant in the source. -/
def sysrootQueryArgv : List String :=
  ["arm-unknown-linux-gnueabihf-gcc", "-print-sysroot"]

/-- The placeholder token of line 189. -/
def sysrootPattern : String := "\x7bSYSROOT\x7d"

/-- Model of `' '.join(self.getBuilderCFLAGS())` (line 183). -/
def builderCFLAGSstr (ctx : BuildCtx) : String :=
  String.intercalate " " (getBuilderCFLAGS ctx.env ctx.targetCFLAGS)

/-- Model of `' '.join(self.getBuilderLDFLAGS())` (line 184). -/
def builderLDFLAGSstr (ctx : BuildCtx) : String :=
  String.intercalate " " (getBuilderLDFLAGS ctx.env ctx.ctrLDFLAGS ctx.targetLDFLAGS)

/-- Source lines 183-204: split the joined flag strings with `shlex`; if
either string contains the sysroot placeholder, run the sysroot query
(`none` result = `CalledProcessError`/`FileNotFoundError`, a fatal
failure) and substitute the stripped output into every token of both
lists.  Returns the flag lists (or `none` on fatal failure) and the
process events performed. -/
def resolveFlags (ctx : BuildCtx) : Option (List String × List String) × List BEvent :=
  let cstr := builderCFLAGSstr ctx
  let lstr := builderLDFLAGSstr ctx
  let cfl := ctx.shlexSplit cstr
  let lfl := ctx.shlexSplit lstr
  if strHasSub sysrootPattern cstr || strHasSub sysrootPattern lstr then
    match ctx.sysrootOut with
    | none => (none, [BEvent.sysrootQuery sysrootQueryArgv])
    | some out =>
      let sysroot := pyStrip out
      (some (cfl.map (fun s => strReplace s sysrootPattern sysroot),
             lfl.map (fun s => strReplace s sysrootPattern sysroot)),
       [BEvent.sysrootQuery sysrootQueryArgv])
  else
    (some (cfl, lfl), [])

/-- Outcome of the object-file generation loop (lines 207-250). -/
inductive LoopOut where
  | cont (cache : Cache) (relink : Bool) (obns objs : List String) (evs : List BEvent)
  | compFail (cache : Cache) (evs : List BEvent)
  | keyErr (cache : Cache) (evs : List BEvent)
deriving DecidableEq

/-- Source lines 217-250: walk the units of one location group.  For a
`.c` unit: run the cache check; on mismatch set `relink`, invoke the
compiler, and on a non-zero exit pop the unit's cache entry (a missing
key raises `KeyError`, modelled by `keyErr`) and abort with failure.
`.o` units are recorded directly; other units are skipped. -/
def doUnits (ctx : BuildCtx) (cfl : List String) (fuel : Nat) (fs : FS) :
    List CUnit → Cache → Bool → List String → List String → List BEvent →
    Option LoopOut
  | [], cache, relink, obns, objs, evs => some (.cont cache relink obns objs evs)
  | u :: us, cache, relink, obns, objs, evs =>
    if pyEndsWith u.cfile ".c" then
      let bn := pyBasename u.cfile
      let obn := pySplitextRoot bn ++ ".o"
      let objectfilename := pySplitextRoot u.cfile ++ ".o"
      match check_and_update_hash_and_deps ctx.hash fs ctx.buildpath fuel cache bn with
      | none => none
      | some (mtch, cache1) =>
        if mtch then
          doUnits ctx cfl fuel fs us cache1 relink (obns ++ [obn])
            (objs ++ [objectfilename]) evs
        else
          let argv := [ctx.compiler, "-c", u.cfile, "-o", objectfilename, "-O2"]
              ++ cfl ++ ctx.shlexSplit u.cflags
          let evs1 := evs ++ [BEvent.compile u.cfile argv]
          if ctx.compileStatus u.cfile != 0 then
            match cachePop cache1 bn with
            | none => some (.keyErr cache1 evs1)
            | some cache2 => some (.compFail cache2 evs1)
          else
            doUnits ctx cfl fuel fs us cache1 true (obns ++ [obn])
              (objs ++ [objectfilename]) evs1
    else if pyEndsWith u.cfile ".o" then
      doUnits ctx cfl fuel fs us cache relink (obns ++ [pyBasename u.cfile])
        (objs ++ [u.cfile]) evs
    else
      doUnits ctx cfl fuel fs us cache relink obns objs evs

/-- Source line 210: iterate the location groups in project order. -/
def doGroups (ctx : BuildCtx) (cfl : List String) (fuel : Nat) (fs : FS) :
    List (List CUnit) → Cache → Bool → List String → List String → List BEvent →
    Option LoopOut
  | [], cache, relink, obns, objs, evs => some (.cont cache relink obns objs evs)
  | g :: gs, cache, relink, obns, objs, evs =>
    match doUnits ctx cfl fuel fs g cache relink obns objs evs with
    | none => none
    | some (.cont c r ob oj ev) => doGroups ctx cfl fuel fs gs c r ob oj ev
    | some out => some out

/-- Model of `self._GetMD5FileName()` (lines 102-103). -/
def md5FileName (buildpath : String) : String :=
  joinPath buildpath "lastbuildPLC.md5"

/-- Result of a `build()` call: a returned boolean, or an uncaught
exception (`KeyError` from line 243's `pop`). -/
inductive BRes where
  | ok (b : Bool)
  | exn
deriving DecidableEq

/-- Source lines 178-280 (`build`): resolve flags (fatal sysroot failure
returns `False` at once); initialize `relink` to the negation of the
artifact file's existence (line 209); walk all units; if `relink`, invoke
the linker (non-zero exit returns `False`); finally hash the artifact,
store the digest in `md5key` and in the persisted fingerprint file, and
return `True`.  `none` models non-termination of the unfuelled dependency
recursion. -/
def build (ctx : BuildCtx) (fuel : Nat) (w : World) :
    Option (BRes × World × List BEvent) :=
  match resolveFlags ctx with
  | (none, evs) => some (.ok false, w, evs)
  | (some (cfl, lfl), evs0) =>
    let binPath := joinPath ctx.buildpath ctx.binName
    let relink0 := !osPathExists w.fs binPath
    match doGroups ctx cfl fuel w.fs ctx.locations w.srcmd5 relink0 [] [] evs0 with
    | none => none
    | some (.keyErr c evs) => some (.exn, { w with srcmd5 := c }, evs)
    | some (.compFail c evs) => some (.ok false, { w with srcmd5 := c }, evs)
    | some (.cont c relink _obns objs evs) =>
      if relink then
        let argv := [ctx.linker] ++ objs ++ ["-o", binPath] ++ lfl
        let evs1 := evs ++ [BEvent.link argv]
        match ctx.linkResult with
        | none => some (.ok false, { w with srcmd5 := c }, evs1)
        | some bytes =>
          let fs1 := fsWrite w.fs binPath bytes
          let key := ctx.hash ((fsRead fs1 binPath).getD "")
          let fs2 := fsWrite fs1 (md5FileName ctx.buildpath) key
          some (.ok true, { fs := fs2, srcmd5 := c, md5key := some key }, evs1)
      else
        let key := ctx.hash ((fsRead w.fs binPath).getD "")
        let fs2 := fsWrite w.fs (md5FileName ctx.buildpath) key
        some (.ok true, { fs := fs2, srcmd5 := c, md5key := some key }, evs)

/-- Source lines 112-119 (`GetBinaryMD5`): the in-memory digest if
present, else the persisted fingerprint file, else `None`. -/
def GetBinaryMD5 (buildpath : String) (w : World) : Option String :=
  match w.md5key with
  | some k => some k
  | none => fsRead w.fs (md5FileName buildpath)

/-- Shared witness scenario: one compilable unit `a.c`, identity hash,
empty tokenizer, no sysroot placeholder, all processes succeed. -/
def ctxT : BuildCtx :=
  { hash := fun s => s
    shlexSplit := fun _ => []
    buildpath := "bp"
    env := []
    compiler := "cc"
    linker := "ld"
    targetCFLAGS := ""
    targetLDFLAGS := ""
    ctrLDFLAGS := []
    binName := "p.bin"
    locations := [[⟨"a.c", ""⟩]]
    sysrootOut := none
    compileStatus := fun _ => 0
    linkResult := some "BIN" }

/-- Initial world of the shared witness scenario: only the source file
exists; empty cache; no fingerprint. -/
def wT : World := ⟨⟨[("bp/a.c", "X")]⟩, [], none⟩

/-- The first ten characters of a well-formed include line: `#include `,
then the opening delimiter. -/
def incOpen (delim : Char) : List Char :=
  ['#', 'i', 'n', 'c', 'l', 'u', 'd', 'e', ' ', delim]

/-- The events carried by a loop outcome. -/
def loopEvs : LoopOut → List BEvent
  | .cont _ _ _ _ ev => ev
  | .compFail _ ev => ev
  | .keyErr _ ev => ev

/-- Recognizer for compile events. -/
def isCompileEv : BEvent → Bool
  | .compile _ _ => true
  | _ => false

/-- Recognizer for link events. -/
def isLinkEv : BEvent → Bool
  | .link _ => true
  | _ => false

/-- No compile event occurs in the list. -/
def noCompileEvs (evs : List BEvent) : Bool :=
  evs.all (fun e => !isCompileEv e)

/-- No link event occurs in the list. -/
def noLinkEvs (evs : List BEvent) : Bool :=
  evs.all (fun e => !isLinkEv e)

/-- All dependency lists stored in the cache are empty. -/
def cacheDepsEmpty (c : Cache) : Bool :=
  c.all (fun e => e.2.2.isEmpty)

/-- Sanity condition on one unit for the idempotence proof: compilable
units have a source file present and a joined path that does not itself
parse as an include directive. -/
def goodUnit (fs : FS) (bp : String) (u : CUnit) : Bool :=
  !(pyEndsWith u.cfile ".c") ||
    (decide (pathIncludeNames (joinPath bp (pyBasename u.cfile)) = []) &&
     osPathExists fs (joinPath bp (pyBasename u.cfile)))

/-- The digest stored for `k` equals the hash of its current content and
its stored dependency list is empty. -/
abbrev entryFresh (hash : String → String) (fs : FS) (bp : String) (c : Cache)
    (k : String) : Prop :=
  cacheGet c k = some (hash ((fsRead fs (joinPath bp k)).getD ""), [])

/-- Concrete scenario for C1: `a.c` includes `b.h`; both exist. -/
def fsC1a : FS := ⟨[("bp/a.c", "#include \"b.h\"\n"), ("bp/b.h", "H1")]⟩

/-- Same as `fsC1a` but with `b.h`'s content modified. -/
def fsC1b : FS := ⟨[("bp/a.c", "#include \"b.h\"\n"), ("bp/b.h", "H2")]⟩

/-- The cache produced by the first `checkAndUpdate("a.c")` (with the
identity function standing in for the hasher): digest recorded, but the
dependency list is empty. -/
def cC1 : Cache := [("a.c", ("#include \"b.h\"\n", []))]

/-- Concrete context for the C4 counterexample: a single compilable unit
whose source file does not exist, whose compilation (attempted because a
missing file reports "changed") exits non-zero. -/
def ctxC4 : BuildCtx :=
  { hash := fun s => s
    shlexSplit := fun _ => []
    buildpath := "bp"
    env := []
    compiler := "cc"
    linker := "ld"
    targetCFLAGS := ""
    targetLDFLAGS := ""
    ctrLDFLAGS := []
    binName := "p.bin"
    locations := [[⟨"a.c", ""⟩]]
    sysrootOut := none
    compileStatus := fun _ => 1
    linkResult := some "B" }

/-- Initial world for the C4 counterexample: empty build directory,
empty cache. -/
def wC4 : World := ⟨⟨[]⟩, [], none⟩

/-- Concrete context for the C2 counterexample: the configured compiler
is "gcc" and the target compiler flags contain the sysroot placeholder. -/
def ctxC2 : BuildCtx :=
  { hash := fun s => s
    shlexSplit := fun _ => []
    buildpath := "bp"
    env := []
    compiler := "gcc"
    linker := "ld"
    targetCFLAGS := sysrootPattern
    targetLDFLAGS := ""
    ctrLDFLAGS := []
    binName := "p.bin"
    locations := []
    sysrootOut := some "/sr\n"
    compileStatus := fun _ => 0
    linkResult := some "B" }

/-- Initial world for the C2 counterexample. -/
def wC2 : World := ⟨⟨[]⟩, [], none⟩

/-- World after the first build of the shared witness scenario
(`ctxT`, `wT`): artifact and fingerprint written, unit cached. -/
def wT1 : World :=
  ⟨⟨[("bp/lastbuildPLC.md5", "BIN"), ("bp/p.bin", "BIN"), ("bp/a.c", "X")]⟩,
   [("a.c", ("X", []))], some "BIN"⟩

/-- Events of the first build of the shared witness scenario. -/
def evT1 : List BEvent :=
  [BEvent.compile "a.c" ["cc", "-c", "a.c", "-o", "a.o", "-O2"],
   BEvent.link ["ld", "a.o", "-o", "bp/p.bin"]]

/-! ## General lemmas -/

theorem string_mk_toList (s : String) : String.mk s.toList = s := by
  cases s; rfl

theorem takeWhile_middle (p : Char → Bool) (l₁ : List Char) (c : Char) (l₂ : List Char)
    (h : ∀ x ∈ l₁, p x = true) (hc : p c = false) :
    (l₁ ++ c :: l₂).takeWhile p = l₁ ∧ (l₁ ++ c :: l₂).dropWhile p = c :: l₂ := by
  induction l₁ with
  | nil => simp [List.takeWhile_cons, List.dropWhile_cons, hc]
  | cons a as ih =>
    have ha : p a = true := h a (by simp)
    have h' := ih (fun x hx => h x (by simp [hx]))
    simp [List.takeWhile_cons, List.dropWhile_cons, ha, h'.1, h'.2]

theorem scanIncludeName_spec (nm : List Char) (c : Char) (tail : List Char)
    (h : ∀ x ∈ nm, notCloser x = true) (hc : notCloser c = false) :
    scanIncludeName (nm ++ c :: tail) = some (String.mk nm) := by
  have h' := takeWhile_middle notCloser nm c tail h hc
  simp [scanIncludeName, h'.1, h'.2]

theorem includesMatchLine_shape (opener closer : Char) (name tail : List Char)
    (hop : opener = '"' ∨ opener = '<')
    (hcl : notCloser closer = false)
    (hn : ∀ x ∈ name, notCloser x = true) :
    includesMatchLine (String.mk (incOpen opener ++ name ++ closer :: tail)) =
      some (String.mk name) := by
  have hsc := scanIncludeName_spec name closer tail hn hcl
  rcases hop with h | h <;> subst h <;>
    simpa [includesMatchLine, incOpen, dropPySpaces, stripLiteral, isPySpace,
      String.toList] using hsc

theorem cacheGet_cacheSet_ne (c : Cache) (k k' : String) (v : String × List String)
    (h : k' ≠ k) : cacheGet (cacheSet c k v) k' = cacheGet c k' := by
  have hkk : (k == k') = false := by
    simp only [beq_eq_false_iff_ne]
    exact fun he => h he.symm
  induction c with
  | nil => simp [cacheSet, cacheGet, assocGet, hkk]
  | cons e rest ih =>
    by_cases he : (e.1 == k) = true
    · have heq : e.1 = k := by simpa using he
      have he' : (e.1 == k') = false := by
        simp only [beq_eq_false_iff_ne]
        intro hh
        exact h (by rw [← hh, heq])
      simp [cacheSet, cacheGet, assocGet, he, he', hkk]
    · have hef : (e.1 == k) = false := by simpa using he
      by_cases he' : (e.1 == k') = true
      · simp [cacheSet, cacheGet, assocGet, hef, he']
      · have hef' : (e.1 == k') = false := by simpa using he'
        simp only [cacheSet, hef, Bool.false_eq_true, if_false, cacheGet, assocGet,
          hef']
        exact ih

/-- One unfolding step of the fuelled `check_and_update_hash_and_deps`,
with the match flag resolved in each branch. -/
theorem cauhdAux_succ (hash : String → String) (fs : FS) (bp : String)
    (f : Nat) (c : Cache) (bn : String) :
    cauhdAux hash fs bp (f + 1) c bn =
      if osPathExists fs (joinPath bp bn) then
        if ((cacheGet c bn).map (·.1) ==
            some (hash ((fsRead fs (joinPath bp bn)).getD ""))) then
          andFoldCheck (cauhdAux hash fs bp f) c
            (((cacheGet c bn).map (·.2)).getD []) true
        else
          andFoldCheck (cauhdAux hash fs bp f)
            (cacheSet c bn (hash ((fsRead fs (joinPath bp bn)).getD ""),
              append_cfile_deps fs bp (joinPath bp bn) []))
            (append_cfile_deps fs bp (joinPath bp bn) []) false
      else some (false, c) := by
  by_cases hex : osPathExists fs (joinPath bp bn) = true
  · by_cases hm : ((cacheGet c bn).map (·.1) ==
        some (hash ((fsRead fs (joinPath bp bn)).getD ""))) = true
    · simp [cauhdAux, hex, hm]
    · simp [cauhdAux, hex, hm]
  · simp [cauhdAux, hex]

theorem andFoldCheck_preserve (P : Cache → Prop)
    (rec : Cache → String → Option (Bool × Cache))
    (hrec : ∀ c x b c', P c → rec c x = some (b, c') → P c') :
    ∀ l c acc b c', P c → andFoldCheck rec c l acc = some (b, c') → P c' := by
  intro l
  induction l with
  | nil =>
    intro c acc b c' hP hrun
    simp [andFoldCheck] at hrun
    rw [← hrun.2]
    exact hP
  | cons d ds ih =>
    intro c acc b c' hP hrun
    simp only [andFoldCheck] at hrun
    cases hr : rec c d with
    | none => rw [hr] at hrun; simp at hrun
    | some rc =>
      rw [hr] at hrun
      obtain ⟨r, c₁⟩ := rc
      exact ih c₁ (acc && r) b c' (hrec c d r c₁ hP hr) hrun

/-- A cache entry whose stored digest equals the current content hash of
its file is never modified by any run of the recursive check (writes
happen only on digest mismatch, and any visit to this entry matches). -/
theorem cauhd_preserve (hash : String → String) (fs : FS) (bp : String)
    (bn : String) (h0 : String) (ds0 : List String)
    (hdig : h0 = hash ((fsRead fs (joinPath bp bn)).getD "")) :
    ∀ f c x b c', cacheGet c bn = some (h0, ds0) →
      cauhdAux hash fs bp f c x = some (b, c') →
      cacheGet c' bn = some (h0, ds0) := by
  intro f
  induction f with
  | zero =>
    intro c x b c' hP hrun
    simp [cauhdAux] at hrun
  | succ f ih =>
    intro c x b c' hP hrun
    rw [cauhdAux_succ] at hrun
    by_cases hex : osPathExists fs (joinPath bp x) = true
    · rw [if_pos hex] at hrun
      by_cases hm : ((cacheGet c x).map (·.1) ==
          some (hash ((fsRead fs (joinPath bp x)).getD ""))) = true
      · rw [if_pos hm] at hrun
        exact andFoldCheck_preserve _ _ ih _ _ _ _ _ hP hrun
      · rw [if_neg hm] at hrun
        have hxbn : bn ≠ x := by
          intro he
          subst he
          apply hm
          rw [hP]
          simp [hdig]
        have hP1 : cacheGet (cacheSet c x
            (hash ((fsRead fs (joinPath bp x)).getD ""),
             append_cfile_deps fs bp (joinPath bp x) [])) bn = some (h0, ds0) := by
          rw [cacheGet_cacheSet_ne c x bn _ hxbn]
          exact hP
        exact andFoldCheck_preserve _ _ ih _ _ _ _ _ hP1 hrun
    · rw [if_neg hex] at hrun
      simp at hrun
      rw [← hrun.2]
      exact hP

theorem assocGet_eq_none_of_not_mem {α : Type} (l : List (String × α)) (k : String)
    (h : k ∉ l.map Prod.fst) : assocGet l k = none := by
  induction l with
  | nil => rfl
  | cons e rest ih =>
    have h1 : ¬ e.1 = k := fun he => h (by simp [he])
    have h2 : (e.1 == k) = false := by simpa using h1
    simp only [assocGet, h2, Bool.false_eq_true, if_false]
    exact ih (fun hm => h (by simp at hm ⊢; exact Or.inr hm))

theorem cachePop_get_ne (c : Cache) (k k' : String) (c' : Cache)
    (h : cachePop c k = some c') (hne : k' ≠ k) :
    cacheGet c' k' = cacheGet c k' := by
  induction c generalizing c' with
  | nil => simp [cachePop] at h
  | cons e rest ih =>
    by_cases he : (e.1 == k) = true
    · have heq : e.1 = k := by simpa using he
      simp only [cachePop, he, if_pos, Option.some.injEq] at h
      subst h
      have he' : (e.1 == k') = false := by
        simp only [beq_eq_false_iff_ne]
        intro hh
        exact hne (by rw [← hh, heq])
      simp [cacheGet, assocGet, he']
    · have hef : (e.1 == k) = false := by simpa using he
      simp only [cachePop, hef, Bool.false_eq_true, if_false] at h
      cases hr : cachePop rest k with
      | none => rw [hr] at h; simp at h
      | some c'' =>
        rw [hr] at h
        simp only [Option.map_some', Option.some.injEq] at h
        subst h
        by_cases he' : (e.1 == k') = true
        · simp [cacheGet, assocGet, he']
        · have hef' : (e.1 == k') = false := by simpa using he'
          simp only [cacheGet, assocGet, hef', Bool.false_eq_true, if_false]
          exact ih c'' hr

theorem cachePop_get_self (c : Cache) (k : String) (c' : Cache)
    (h : cachePop c k = some c') (hnd : (c.map Prod.fst).Nodup) :
    cacheGet c' k = none := by
  induction c generalizing c' with
  | nil => simp [cachePop] at h
  | cons e rest ih =>
    by_cases he : (e.1 == k) = true
    · have heq : e.1 = k := by simpa using he
      simp only [cachePop, he, if_pos, Option.some.injEq] at h
      subst h
      have hnd' : (e.1 :: rest.map Prod.fst).Nodup := by simpa using hnd
      have hmem : e.1 ∉ rest.map Prod.fst := (List.nodup_cons.mp hnd').1
      rw [heq] at hmem
      exact assocGet_eq_none_of_not_mem rest k hmem
    · have hef : (e.1 == k) = false := by simpa using he
      simp only [cachePop, hef, Bool.false_eq_true, if_false] at h
      cases hr : cachePop rest k with
      | none => rw [hr] at h; simp at h
      | some c'' =>
        rw [hr] at h
        simp only [Option.map_some', Option.some.injEq] at h
        subst h
        simp only [cacheGet, assocGet, hef, Bool.false_eq_true, if_false]
        have hnd' : (e.1 :: rest.map Prod.fst).Nodup := by simpa using hnd
        exact ih c'' hr (List.nodup_cons.mp hnd').2

theorem doUnits_append (ctx : BuildCtx) (cfl : List String) (fuel : Nat) (fs : FS)
    (us vs : List CUnit) :
    ∀ c r ob oj ev, doUnits ctx cfl fuel fs (us ++ vs) c r ob oj ev =
      match doUnits ctx cfl fuel fs us c r ob oj ev with
      | none => none
      | some (.cont c' r' ob' oj' ev') => doUnits ctx cfl fuel fs vs c' r' ob' oj' ev'
      | some out => some out := by
  induction us with
  | nil => intro c r ob oj ev; simp [doUnits]
  | cons u us ih =>
    intro c r ob oj ev
    by_cases h1 : pyEndsWith u.cfile ".c" = true
    · simp only [List.cons_append, doUnits, h1, if_pos]
      cases hchk : check_and_update_hash_and_deps ctx.hash fs ctx.buildpath fuel c
          (pyBasename u.cfile) with
      | none => simp
      | some mc =>
        obtain ⟨mtch, c1⟩ := mc
        by_cases hm : mtch = true
        · subst hm
          simp [ih]
        · have hmf : mtch = false := by simpa using hm
          subst hmf
          by_cases hst : (ctx.compileStatus u.cfile != 0) = true
          · simp only [Bool.false_eq_true, if_false, hst, if_pos]
            cases cachePop c1 (pyBasename u.cfile) <;> simp
          · have hstf : (ctx.compileStatus u.cfile != 0) = false := by simpa using hst
            simp [hstf, ih]
    · by_cases h2 : pyEndsWith u.cfile ".o" = true
      · simp [doUnits, h1, h2, ih]
      · simp [doUnits, h1, h2, ih]

/-- The unit loop only appends compile events to the event trace. -/
theorem doUnits_evs_extend (ctx : BuildCtx) (cfl : List String) (fuel : Nat) (fs : FS) :
    ∀ us c r ob oj evs out, doUnits ctx cfl fuel fs us c r ob oj evs = some out →
      ∃ t, loopEvs out = evs ++ t ∧ t.all isCompileEv = true := by
  intro us
  induction us with
  | nil =>
    intro c r ob oj evs out h
    simp only [doUnits, Option.some.injEq] at h
    exact ⟨[], by simp [← h, loopEvs]⟩
  | cons u us ih =>
    intro c r ob oj evs out h
    by_cases h1 : pyEndsWith u.cfile ".c" = true
    · simp only [doUnits, h1, if_pos] at h
      cases hchk : check_and_update_hash_and_deps ctx.hash fs ctx.buildpath fuel c
          (pyBasename u.cfile) with
      | none => rw [hchk] at h; simp at h
      | some mc =>
        rw [hchk] at h
        obtain ⟨mtch, c1⟩ := mc
        by_cases hm : mtch = true
        · subst hm
          simp only [if_pos] at h
          exact ih _ _ _ _ _ _ h
        · have hmf : mtch = false := by simpa using hm
          subst hmf
          simp only [Bool.false_eq_true, if_false] at h
          by_cases hst : (ctx.compileStatus u.cfile != 0) = true
          · rw [if_pos hst] at h
            cases hp : cachePop c1 (pyBasename u.cfile) with
            | none =>
              rw [hp] at h
              simp only [Option.some.injEq] at h
              subst h
              refine ⟨[BEvent.compile u.cfile ([ctx.compiler, "-c", u.cfile, "-o",
                pySplitextRoot u.cfile ++ ".o", "-O2"] ++ cfl ++ ctx.shlexSplit u.cflags)],
                by simp [loopEvs], by simp [isCompileEv]⟩
            | some c2 =>
              rw [hp] at h
              simp only [Option.some.injEq] at h
              subst h
              refine ⟨[BEvent.compile u.cfile ([ctx.compiler, "-c", u.cfile, "-o",
                pySplitextRoot u.cfile ++ ".o", "-O2"] ++ cfl ++ ctx.shlexSplit u.cflags)],
                by simp [loopEvs], by simp [isCompileEv]⟩
          · have hstf : (ctx.compileStatus u.cfile != 0) = false := by simpa using hst
            rw [hstf] at h
            simp only [Bool.false_eq_true, if_false] at h
            obtain ⟨t, ht, hall⟩ := ih _ _ _ _ _ _ h
            refine ⟨BEvent.compile u.cfile ([ctx.compiler, "-c", u.cfile, "-o",
              pySplitextRoot u.cfile ++ ".o", "-O2"] ++ cfl ++ ctx.shlexSplit u.cflags) :: t,
              ?_, by simp [isCompileEv, hall]⟩
            rw [ht]
            simp
    · by_cases h2 : pyEndsWith u.cfile ".o" = true
      · simp only [doUnits, h1, Bool.false_eq_true, if_false, h2, if_pos] at h
        exact ih _ _ _ _ _ _ h
      · simp only [doUnits, h1, h2, Bool.false_eq_true, if_false] at h
        exact ih _ _ _ _ _ _ h

/-- The group loop only appends compile events to the event trace. -/
theorem doGroups_evs_extend (ctx : BuildCtx) (cfl : List String) (fuel : Nat) (fs : FS) :
    ∀ gs c r ob oj evs out, doGroups ctx cfl fuel fs gs c r ob oj evs = some out →
      ∃ t, loopEvs out = evs ++ t ∧ t.all isCompileEv = true := by
  intro gs
  induction gs with
  | nil =>
    intro c r ob oj evs out h
    simp only [doGroups, Option.some.injEq] at h
    exact ⟨[], by simp [← h, loopEvs]⟩
  | cons g gs ih =>
    intro c r ob oj evs out h
    simp only [doGroups] at h
    cases hu : doUnits ctx cfl fuel fs g c r ob oj evs with
    | none => rw [hu] at h; simp at h
    | some out1 =>
      rw [hu] at h
      obtain ⟨t1, ht1, hall1⟩ := doUnits_evs_extend ctx cfl fuel fs g c r ob oj evs out1 hu
      cases out1 with
      | cont c1 r1 ob1 oj1 ev1 =>
        obtain ⟨t2, ht2, hall2⟩ := ih _ _ _ _ _ _ h
        refine ⟨t1 ++ t2, ?_, by simp_all⟩
        rw [ht2]
        simp only [loopEvs] at ht1
        rw [ht1, List.append_assoc]
      | compFail c1 ev1 =>
        simp only [Option.some.injEq] at h
        subst h
        exact ⟨t1, ht1, hall1⟩
      | keyErr c1 ev1 =>
        simp only [Option.some.injEq] at h
        subst h
        exact ⟨t1, ht1, hall1⟩

/-- The flag `relink` is never reset by the unit loop. -/
theorem doUnits_relink_mono (ctx : BuildCtx) (cfl : List String) (fuel : Nat) (fs : FS) :
    ∀ us c ob oj evs c' r' ob' oj' ev',
      doUnits ctx cfl fuel fs us c true ob oj evs = some (.cont c' r' ob' oj' ev') →
      r' = true := by
  intro us
  induction us with
  | nil =>
    intro c ob oj evs c' r' ob' oj' ev' h
    simp only [doUnits, Option.some.injEq, LoopOut.cont.injEq] at h
    exact h.2.1.symm
  | cons u us ih =>
    intro c ob oj evs c' r' ob' oj' ev' h
    by_cases h1 : pyEndsWith u.cfile ".c" = true
    · simp only [doUnits, h1, if_pos] at h
      cases hchk : check_and_update_hash_and_deps ctx.hash fs ctx.buildpath fuel c
          (pyBasename u.cfile) with
      | none => rw [hchk] at h; simp at h
      | some mc =>
        rw [hchk] at h
        obtain ⟨mtch, c1⟩ := mc
        by_cases hm : mtch = true
        · subst hm
          simp only [if_pos] at h
          exact ih _ _ _ _ _ _ _ _ _ h
        · have hmf : mtch = false := by simpa using hm
          subst hmf
          simp only [Bool.false_eq_true, if_false] at h
          by_cases hst : (ctx.compileStatus u.cfile != 0) = true
          · rw [if_pos hst] at h
            cases hp : cachePop c1 (pyBasename u.cfile) with
            | none => rw [hp] at h; simp at h
            | some c2 => rw [hp] at h; simp at h
          · have hstf : (ctx.compileStatus u.cfile != 0) = false := by simpa using hst
            rw [hstf] at h
            simp only [Bool.false_eq_true, if_false] at h
            exact ih _ _ _ _ _ _ _ _ _ h
    · by_cases h2 : pyEndsWith u.cfile ".o" = true
      · simp only [doUnits, h1, Bool.false_eq_true, if_false, h2, if_pos] at h
        exact ih _ _ _ _ _ _ _ _ _ h
      · simp only [doUnits, h1, h2, Bool.false_eq_true, if_false] at h
        exact ih _ _ _ _ _ _ _ _ _ h

/-- The flag `relink` is never reset by the group loop. -/
theorem doGroups_relink_mono (ctx : BuildCtx) (cfl : List String) (fuel : Nat) (fs : FS) :
    ∀ gs c ob oj evs c' r' ob' oj' ev',
      doGroups ctx cfl fuel fs gs c true ob oj evs = some (.cont c' r' ob' oj' ev') →
      r' = true := by
  intro gs
  induction gs with
  | nil =>
    intro c ob oj evs c' r' ob' oj' ev' h
    simp only [doGroups, Option.some.injEq, LoopOut.cont.injEq] at h
    exact h.2.1.symm
  | cons g gs ih =>
    intro c ob oj evs c' r' ob' oj' ev' h
    simp only [doGroups] at h
    cases hu : doUnits ctx cfl fuel fs g c true ob oj evs with
    | none => rw [hu] at h; simp at h
    | some out1 =>
      rw [hu] at h
      cases out1 with
      | cont c1 r1 ob1 oj1 ev1 =>
        have hr1 : r1 = true := doUnits_relink_mono ctx cfl fuel fs g _ _ _ _ _ _ _ _ _ hu
        subst hr1
        exact ih _ _ _ _ _ _ _ _ _ h
      | compFail c1 ev1 => simp at h
      | keyErr c1 ev1 => simp at h

/-- If the unit loop finishes a pass with no compile event in its final
trace, `relink` is exactly what it started as. -/
theorem doUnits_relink_of_noCompile (ctx : BuildCtx) (cfl : List String) (fuel : Nat)
    (fs : FS) :
    ∀ us c r ob oj evs c' r' ob' oj' ev',
      doUnits ctx cfl fuel fs us c r ob oj evs = some (.cont c' r' ob' oj' ev') →
      noCompileEvs ev' = true → r' = r := by
  intro us
  induction us with
  | nil =>
    intro c r ob oj evs c' r' ob' oj' ev' h _
    simp only [doUnits, Option.some.injEq, LoopOut.cont.injEq] at h
    exact h.2.1.symm
  | cons u us ih =>
    intro c r ob oj evs c' r' ob' oj' ev' h hnc
    by_cases h1 : pyEndsWith u.cfile ".c" = true
    · simp only [doUnits, h1, if_pos] at h
      cases hchk : check_and_update_hash_and_deps ctx.hash fs ctx.buildpath fuel c
          (pyBasename u.cfile) with
      | none => rw [hchk] at h; simp at h
      | some mc =>
        rw [hchk] at h
        obtain ⟨mtch, c1⟩ := mc
        by_cases hm : mtch = true
        · subst hm
          simp only [if_pos] at h
          exact ih _ _ _ _ _ _ _ _ _ _ h hnc
        · have hmf : mtch = false := by simpa using hm
          subst hmf
          simp only [Bool.false_eq_true, if_false] at h
          by_cases hst : (ctx.compileStatus u.cfile != 0) = true
          · rw [if_pos hst] at h
            cases hp : cachePop c1 (pyBasename u.cfile) with
            | none => rw [hp] at h; simp at h
            | some c2 => rw [hp] at h; simp at h
          · have hstf : (ctx.compileStatus u.cfile != 0) = false := by simpa using hst
            rw [hstf] at h
            simp only [Bool.false_eq_true, if_false] at h
            obtain ⟨t, ht, _⟩ := doUnits_evs_extend ctx cfl fuel fs us _ _ _ _ _ _ h
            simp only [loopEvs] at ht
            rw [ht] at hnc
            simp [noCompileEvs, isCompileEv] at hnc
    · by_cases h2 : pyEndsWith u.cfile ".o" = true
      · simp only [doUnits, h1, Bool.false_eq_true, if_false, h2, if_pos] at h
        exact ih _ _ _ _ _ _ _ _ _ _ h hnc
      · simp only [doUnits, h1, h2, Bool.false_eq_true, if_false] at h
        exact ih _ _ _ _ _ _ _ _ _ _ h hnc

/-- If the group loop finishes with no compile event in its final trace,
`relink` is exactly what it started as. -/
theorem doGroups_relink_of_noCompile (ctx : BuildCtx) (cfl : List String) (fuel : Nat)
    (fs : FS) :
    ∀ gs c r ob oj evs c' r' ob' oj' ev',
      doGroups ctx cfl fuel fs gs c r ob oj evs = some (.cont c' r' ob' oj' ev') →
      noCompileEvs ev' = true → r' = r := by
  intro gs
  induction gs with
  | nil =>
    intro c r ob oj evs c' r' ob' oj' ev' h _
    simp only [doGroups, Option.some.injEq, LoopOut.cont.injEq] at h
    exact h.2.1.symm
  | cons g gs ih =>
    intro c r ob oj evs c' r' ob' oj' ev' h hnc
    simp only [doGroups] at h
    cases hu : doUnits ctx cfl fuel fs g c r ob oj evs with
    | none => rw [hu] at h; simp at h
    | some out1 =>
      rw [hu] at h
      cases out1 with
      | cont c1 r1 ob1 oj1 ev1 =>
        obtain ⟨t, ht, _⟩ := doGroups_evs_extend ctx cfl fuel fs gs _ _ _ _ _ _ h
        simp only [loopEvs] at ht
        have hnc1 : noCompileEvs ev1 = true := by
          rw [ht] at hnc
          simp only [noCompileEvs, List.all_append, Bool.and_eq_true] at hnc
          exact hnc.1
        have hr1 : r1 = r :=
          doUnits_relink_of_noCompile ctx cfl fuel fs g _ _ _ _ _ _ _ _ _ _ hu hnc1
        subst hr1
        exact ih _ _ _ _ _ _ _ _ _ _ h hnc
      | compFail c1 ev1 => simp at h
      | keyErr c1 ev1 => simp at h

/-- The events of `resolveFlags` are at most the sysroot query. -/
theorem resolveFlags_evs (ctx : BuildCtx) :
    (resolveFlags ctx).2 = [] ∨
    (resolveFlags ctx).2 = [BEvent.sysrootQuery sysrootQueryArgv] := by
  simp only [resolveFlags]
  by_cases hp : (strHasSub sysrootPattern (builderCFLAGSstr ctx)
      || strHasSub sysrootPattern (builderLDFLAGSstr ctx)) = true
  · rw [if_pos hp]
    cases ctx.sysrootOut <;> simp
  · rw [if_neg hp]
    simp

theorem assocGet_filter_ne {α : Type} (l : List (String × α)) (p q : String)
    (h : q ≠ p) :
    assocGet (l.filter (fun e => !(e.1 == p))) q = assocGet l q := by
  induction l with
  | nil => rfl
  | cons e rest ih =>
    by_cases he : (e.1 == p) = true
    · have heq : e.1 = p := by simpa using he
      have he' : (e.1 == q) = false := by
        simp only [beq_eq_false_iff_ne]
        intro hh
        exact h (by rw [← hh, heq])
      simp [List.filter_cons, he, assocGet, he', ih]
    · have hef : (e.1 == p) = false := by simpa using he
      simp [List.filter_cons, hef, assocGet, ih]

theorem fsRead_fsWrite_self (fs : FS) (p v : String) :
    fsRead (fsWrite fs p v) p = some v := by
  simp [fsRead, fsWrite, assocGet]

theorem fsRead_fsWrite_ne (fs : FS) (p v q : String) (h : q ≠ p) :
    fsRead (fsWrite fs p v) q = fsRead fs q := by
  have hpq : (p == q) = false := by
    simp only [beq_eq_false_iff_ne]
    exact fun he => h he.symm
  simp only [fsRead, fsWrite, assocGet, hpq, Bool.false_eq_true, if_false]
  exact assocGet_filter_ne fs.entries p q h

theorem joinPath_inj_right (bp a b : String) (h : joinPath bp a = joinPath bp b) :
    a = b := by
  have hd : (bp ++ "/" ++ a).data = (bp ++ "/" ++ b).data := congrArg String.data h
  simp only [String.data_append, List.append_assoc] at hd
  exact String.ext (List.append_cancel_left (List.append_cancel_left hd))

theorem compile_all_not_link (t : List BEvent) (h : t.all isCompileEv = true) :
    t.all (fun e => !isLinkEv e) = true := by
  simp only [List.all_eq_true] at h ⊢
  intro e he
  have := h e he
  cases e <;> simp_all [isCompileEv, isLinkEv]

theorem cacheGet_cacheSet_self (c : Cache) (k : String) (v : String × List String) :
    cacheGet (cacheSet c k v) k = some v := by
  induction c with
  | nil => simp [cacheSet, cacheGet, assocGet]
  | cons e rest ih =>
    by_cases he : (e.1 == k) = true
    · simp [cacheSet, he, cacheGet, assocGet]
    · have hef : (e.1 == k) = false := by simpa using he
      simp only [cacheSet, hef, Bool.false_eq_true, if_false, cacheGet, assocGet]
      exact ih

theorem foldl_scan_nil (fs : FS) (bp : String) :
    ∀ ls : List String, ls.filterMap includesMatchLine = [] →
      ls.foldl (scanLineStep fs bp) [] = [] := by
  intro ls
  induction ls with
  | nil => intro _; rfl
  | cons l ls ih =>
    intro h
    rw [List.filterMap_cons] at h
    cases hm : includesMatchLine l with
    | some d => rw [hm] at h; simp at h
    | none =>
      rw [hm] at h
      rw [List.foldl_cons]
      have hstep : scanLineStep fs bp [] l = [] := by simp [scanLineStep, hm]
      rw [hstep]
      exact ih h

theorem append_cfile_deps_nil (fs : FS) (bp : String) (src : String)
    (h : pathIncludeNames src = []) : append_cfile_deps fs bp src [] = [] := by
  unfold append_cfile_deps
  unfold pathIncludeNames at h
  exact foldl_scan_nil fs bp (pySplitlines src) h

theorem cacheDepsEmpty_get (c : Cache) (h : cacheDepsEmpty c = true) (bn : String) :
    ((cacheGet c bn).map (·.2)).getD [] = [] := by
  induction c with
  | nil => rfl
  | cons e rest ih =>
    simp only [cacheDepsEmpty, List.all_cons, Bool.and_eq_true] at h
    by_cases he : (e.1 == bn) = true
    · simp only [cacheGet, assocGet, he, if_pos, Option.map_some', Option.getD_some]
      exact List.isEmpty_iff.mp h.1
    · have hef : (e.1 == bn) = false := by simpa using he
      simp only [cacheGet, assocGet, hef, Bool.false_eq_true, if_false]
      exact ih h.2

theorem cacheDepsEmpty_set (c : Cache) (k hsh : String)
    (h : cacheDepsEmpty c = true) :
    cacheDepsEmpty (cacheSet c k (hsh, [])) = true := by
  induction c with
  | nil => rfl
  | cons e rest ih =>
    simp only [cacheDepsEmpty, List.all_cons, Bool.and_eq_true] at h
    by_cases he : (e.1 == k) = true
    · simp only [cacheSet, he, if_pos, cacheDepsEmpty, List.all_cons,
        Bool.and_eq_true]
      exact ⟨rfl, h.2⟩
    · have hef : (e.1 == k) = false := by simpa using he
      simp only [cacheSet, hef, Bool.false_eq_true, if_false, cacheDepsEmpty,
        List.all_cons, Bool.and_eq_true]
      exact ⟨h.1, ih h.2⟩

/-- A check on a file whose cached digest matches its current content
hash and whose cached dependency list is empty returns "matched" and
leaves the cache untouched. -/
theorem cauhd_match (hash : String → String) (fs : FS) (bp : String) (f : Nat)
    (c : Cache) (bn : String)
    (hex : osPathExists fs (joinPath bp bn) = true)
    (hget : cacheGet c bn = some (hash ((fsRead fs (joinPath bp bn)).getD ""), [])) :
    check_and_update_hash_and_deps hash fs bp (f + 1) c bn = some (true, c) := by
  rw [check_and_update_hash_and_deps, cauhdAux_succ, if_pos hex, hget]
  simp [andFoldCheck]

/-- A check on a file whose joined path parses to no include names (every
real path does) and whose cache entry carries no dependencies reduces to
one digest comparison: the cache is unchanged on a match and gains
exactly the entry `(current hash, [])` on a mismatch. -/
theorem cauhd_simple (hash : String → String) (fs : FS) (bp : String) (f : Nat)
    (c : Cache) (bn : String)
    (hscan : pathIncludeNames (joinPath bp bn) = [])
    (hdeps : ((cacheGet c bn).map (·.2)).getD [] = [])
    (hex : osPathExists fs (joinPath bp bn) = true) :
    check_and_update_hash_and_deps hash fs bp (f + 1) c bn =
      some
        (((cacheGet c bn).map (·.1) == some (hash ((fsRead fs (joinPath bp bn)).getD ""))),
         if ((cacheGet c bn).map (·.1) == some (hash ((fsRead fs (joinPath bp bn)).getD "")))
         then c
         else cacheSet c bn (hash ((fsRead fs (joinPath bp bn)).getD ""), [])) := by
  rw [check_and_update_hash_and_deps, cauhdAux_succ, if_pos hex]
  by_cases hm : ((cacheGet c bn).map (·.1) ==
      some (hash ((fsRead fs (joinPath bp bn)).getD ""))) = true
  · rw [if_pos hm, if_pos hm, hdeps]
    simp [andFoldCheck, hm]
  · rw [if_neg hm, if_neg hm, append_cfile_deps_nil fs bp _ hscan]
    simp only [andFoldCheck, Option.some.injEq, Prod.mk.injEq]
    refine ⟨?_, trivial⟩
    have hmf : ((cacheGet c bn).map (·.1) ==
        some (hash ((fsRead fs (joinPath bp bn)).getD ""))) = false := by
      simpa using hm
    exact hmf.symm

/-- After a unit pass that completes normally (no failure), starting from
a cache all of whose dependency lists are empty and over sane units:
dependency lists stay empty, every compilable unit's entry holds the hash
of its current content, and every already-fresh entry is preserved. -/
theorem doUnits_run1 (ctx : BuildCtx) (cfl : List String) (f : Nat) (fs : FS) :
    ∀ us c r ob oj evs c' r' ob' oj' ev',
      doUnits ctx cfl (f + 1) fs us c r ob oj evs = some (.cont c' r' ob' oj' ev') →
      (∀ u ∈ us, goodUnit fs ctx.buildpath u = true) →
      cacheDepsEmpty c = true →
      cacheDepsEmpty c' = true ∧
      (∀ u ∈ us, pyEndsWith u.cfile ".c" = true →
        entryFresh ctx.hash fs ctx.buildpath c' (pyBasename u.cfile)) ∧
      (∀ k, entryFresh ctx.hash fs ctx.buildpath c k →
        entryFresh ctx.hash fs ctx.buildpath c' k) := by
  intro us
  induction us with
  | nil =>
    intro c r ob oj evs c' r' ob' oj' ev' h _ hde
    simp only [doUnits, Option.some.injEq, LoopOut.cont.injEq] at h
    obtain ⟨hc, -, -, -, -⟩ := h
    subst hc
    exact ⟨hde, by simp, fun k hk => hk⟩
  | cons u us ih =>
    intro c r ob oj evs c' r' ob' oj' ev' h hgood hde
    have hgu := hgood u (by simp)
    have hgrest : ∀ v ∈ us, goodUnit fs ctx.buildpath v = true :=
      fun v hv => hgood v (by simp [hv])
    by_cases h1 : pyEndsWith u.cfile ".c" = true
    · have hparts : pathIncludeNames (joinPath ctx.buildpath (pyBasename u.cfile)) = [] ∧
          osPathExists fs (joinPath ctx.buildpath (pyBasename u.cfile)) = true := by
        simp only [goodUnit, h1, Bool.not_true, Bool.false_or, Bool.and_eq_true,
          decide_eq_true_eq] at hgu
        exact hgu
      have hdeps := cacheDepsEmpty_get c hde (pyBasename u.cfile)
      simp only [doUnits, h1, if_pos] at h
      rw [cauhd_simple ctx.hash fs ctx.buildpath f c (pyBasename u.cfile)
        hparts.1 hdeps hparts.2] at h
      dsimp only at h
      by_cases hm : ((cacheGet c (pyBasename u.cfile)).map (·.1) ==
          some (ctx.hash
            ((fsRead fs (joinPath ctx.buildpath (pyBasename u.cfile))).getD ""))) = true
      · rw [hm] at h
        simp only [if_true] at h
        have hfresh : entryFresh ctx.hash fs ctx.buildpath c (pyBasename u.cfile) := by
          cases hcg : cacheGet c (pyBasename u.cfile) with
          | none => rw [hcg] at hm; simp at hm
          | some p =>
            rw [hcg] at hm
            simp only [Option.map_some', beq_iff_eq, Option.some.injEq] at hm
            rw [hcg] at hdeps
            simp only [Option.map_some', Option.getD_some] at hdeps
            show cacheGet c (pyBasename u.cfile) =
              some (ctx.hash
                ((fsRead fs (joinPath ctx.buildpath (pyBasename u.cfile))).getD ""), [])
            rw [hcg, ← hm, ← hdeps]
        obtain ⟨ihA, ihB, ihC⟩ := ih _ _ _ _ _ _ _ _ _ _ h hgrest hde
        refine ⟨ihA, ?_, ihC⟩
        intro v hv hvc
        rcases List.mem_cons.mp hv with rfl | hv'
        · exact ihC _ hfresh
        · exact ihB v hv' hvc
      · have hmf : ((cacheGet c (pyBasename u.cfile)).map (·.1) ==
            some (ctx.hash
              ((fsRead fs (joinPath ctx.buildpath (pyBasename u.cfile))).getD ""))) =
            false := by simpa using hm
        rw [hmf] at h
        simp only [Bool.false_eq_true, if_false] at h
        by_cases hst : (ctx.compileStatus u.cfile != 0) = true
        · rw [if_pos hst] at h
          cases hp : cachePop
              (cacheSet c (pyBasename u.cfile)
                (ctx.hash
                  ((fsRead fs (joinPath ctx.buildpath (pyBasename u.cfile))).getD ""),
                 []))
              (pyBasename u.cfile) with
          | none => rw [hp] at h; simp at h
          | some c2 => rw [hp] at h; simp at h
        · have hstf : (ctx.compileStatus u.cfile != 0) = false := by simpa using hst
          rw [hstf] at h
          simp only [Bool.false_eq_true, if_false] at h
          have hde1 : cacheDepsEmpty
              (cacheSet c (pyBasename u.cfile)
                (ctx.hash
                  ((fsRead fs (joinPath ctx.buildpath (pyBasename u.cfile))).getD ""),
                 [])) = true :=
            cacheDepsEmpty_set c _ _ hde
          have hfresh1 : entryFresh ctx.hash fs ctx.buildpath
              (cacheSet c (pyBasename u.cfile)
                (ctx.hash
                  ((fsRead fs (joinPath ctx.buildpath (pyBasename u.cfile))).getD ""),
                 []))
              (pyBasename u.cfile) := cacheGet_cacheSet_self _ _ _
          obtain ⟨ihA, ihB, ihC⟩ := ih _ _ _ _ _ _ _ _ _ _ h hgrest hde1
          refine ⟨ihA, ?_, ?_⟩
          · intro v hv hvc
            rcases List.mem_cons.mp hv with rfl | hv'
            · exact ihC _ hfresh1
            · exact ihB v hv' hvc
          · intro k hk
            by_cases hkbn : k = pyBasename u.cfile
            · subst hkbn
              exact ihC _ hfresh1
            · refine ihC k ?_
              show cacheGet _ k = _
              rw [cacheGet_cacheSet_ne c (pyBasename u.cfile) k _ hkbn]
              exact hk
    · by_cases h2 : pyEndsWith u.cfile ".o" = true
      · simp only [doUnits, h1, Bool.false_eq_true, if_false, h2, if_pos] at h
        obtain ⟨ihA, ihB, ihC⟩ := ih _ _ _ _ _ _ _ _ _ _ h hgrest hde
        refine ⟨ihA, ?_, ihC⟩
        intro v hv hvc
        rcases List.mem_cons.mp hv with rfl | hv'
        · exact absurd hvc h1
        · exact ihB v hv' hvc
      · simp only [doUnits, h1, h2, Bool.false_eq_true, if_false] at h
        obtain ⟨ihA, ihB, ihC⟩ := ih _ _ _ _ _ _ _ _ _ _ h hgrest hde
        refine ⟨ihA, ?_, ihC⟩
        intro v hv hvc
        rcases List.mem_cons.mp hv with rfl | hv'
        · exact absurd hvc h1
        · exact ihB v hv' hvc

/-- Group-level version of `doUnits_run1`. -/
theorem doGroups_run1 (ctx : BuildCtx) (cfl : List String) (f : Nat) (fs : FS) :
    ∀ gs c r ob oj evs c' r' ob' oj' ev',
      doGroups ctx cfl (f + 1) fs gs c r ob oj evs = some (.cont c' r' ob' oj' ev') →
      (∀ g ∈ gs, ∀ u ∈ g, goodUnit fs ctx.buildpath u = true) →
      cacheDepsEmpty c = true →
      cacheDepsEmpty c' = true ∧
      (∀ g ∈ gs, ∀ u ∈ g, pyEndsWith u.cfile ".c" = true →
        entryFresh ctx.hash fs ctx.buildpath c' (pyBasename u.cfile)) ∧
      (∀ k, entryFresh ctx.hash fs ctx.buildpath c k →
        entryFresh ctx.hash fs ctx.buildpath c' k) := by
  intro gs
  induction gs with
  | nil =>
    intro c r ob oj evs c' r' ob' oj' ev' h _ hde
    simp only [doGroups, Option.some.injEq, LoopOut.cont.injEq] at h
    obtain ⟨hc, -, -, -, -⟩ := h
    subst hc
    exact ⟨hde, by simp, fun k hk => hk⟩
  | cons g gs ih =>
    intro c r ob oj evs c' r' ob' oj' ev' h hgood hde
    simp only [doGroups] at h
    cases hu : doUnits ctx cfl (f + 1) fs g c r ob oj evs with
    | none => rw [hu] at h; simp at h
    | some out1 =>
      rw [hu] at h
      cases out1 with
      | compFail c1 ev1 => simp at h
      | keyErr c1 ev1 => simp at h
      | cont c1 r1 ob1 oj1 ev1 =>
        obtain ⟨uA, uB, uC⟩ := doUnits_run1 ctx cfl f fs g c r ob oj evs
          c1 r1 ob1 oj1 ev1 hu (fun v hv => hgood g (by simp) v hv) hde
        obtain ⟨gA, gB, gC⟩ := ih _ _ _ _ _ _ _ _ _ _ h
          (fun g' hg' v hv => hgood g' (by simp [hg']) v hv) uA
        refine ⟨gA, ?_, fun k hk => gC k (uC k hk)⟩
        intro g' hg' v hv hvc
        rcases List.mem_cons.mp hg' with rfl | hg''
        · exact gC _ (uB v hv hvc)
        · exact gB g' hg'' v hv hvc

/-- A unit pass over units whose entries are all fresh performs no
check-failure, no compilation, no event, and leaves cache and `relink`
unchanged. -/
theorem doUnits_run2 (ctx : BuildCtx) (cfl : List String) (f : Nat) (fs : FS) :
    ∀ us c r ob oj evs,
      (∀ u ∈ us, pyEndsWith u.cfile ".c" = true →
        entryFresh ctx.hash fs ctx.buildpath c (pyBasename u.cfile) ∧
        osPathExists fs (joinPath ctx.buildpath (pyBasename u.cfile)) = true) →
      ∃ ob' oj', doUnits ctx cfl (f + 1) fs us c r ob oj evs =
        some (.cont c r ob' oj' evs) := by
  intro us
  induction us with
  | nil => intro c r ob oj evs _; exact ⟨ob, oj, rfl⟩
  | cons u us ih =>
    intro c r ob oj evs hgood
    by_cases h1 : pyEndsWith u.cfile ".c" = true
    · obtain ⟨hfresh, hex⟩ := hgood u (by simp) h1
      have hstep := cauhd_match ctx.hash fs ctx.buildpath f c (pyBasename u.cfile)
        hex hfresh
      obtain ⟨ob', oj', hrec⟩ := ih c r
        (ob ++ [pySplitextRoot (pyBasename u.cfile) ++ ".o"])
        (oj ++ [pySplitextRoot u.cfile ++ ".o"]) evs
        (fun v hv hvc => hgood v (by simp [hv]) hvc)
      refine ⟨ob', oj', ?_⟩
      simp only [doUnits, h1, if_pos, hstep]
      exact hrec
    · by_cases h2 : pyEndsWith u.cfile ".o" = true
      · obtain ⟨ob', oj', hrec⟩ := ih c r (ob ++ [pyBasename u.cfile])
          (oj ++ [u.cfile]) evs (fun v hv hvc => hgood v (by simp [hv]) hvc)
        refine ⟨ob', oj', ?_⟩
        simp only [doUnits, h1, Bool.false_eq_true, if_false, h2, if_pos]
        exact hrec
      · obtain ⟨ob', oj', hrec⟩ := ih c r ob oj evs
          (fun v hv hvc => hgood v (by simp [hv]) hvc)
        refine ⟨ob', oj', ?_⟩
        simp only [doUnits, h1, h2, Bool.false_eq_true, if_false]
        exact hrec

/-- Group-level version of `doUnits_run2`. -/
theorem doGroups_run2 (ctx : BuildCtx) (cfl : List String) (f : Nat) (fs : FS) :
    ∀ gs c r ob oj evs,
      (∀ g ∈ gs, ∀ u ∈ g, pyEndsWith u.cfile ".c" = true →
        entryFresh ctx.hash fs ctx.buildpath c (pyBasename u.cfile) ∧
        osPathExists fs (joinPath ctx.buildpath (pyBasename u.cfile)) = true) →
      ∃ ob' oj', doGroups ctx cfl (f + 1) fs gs c r ob oj evs =
        some (.cont c r ob' oj' evs) := by
  intro gs
  induction gs with
  | nil => intro c r ob oj evs _; exact ⟨ob, oj, rfl⟩
  | cons g gs ih =>
    intro c r ob oj evs hgood
    obtain ⟨ob1, oj1, hu⟩ := doUnits_run2 ctx cfl f fs g c r ob oj evs
      (fun v hv hvc => hgood g (by simp) v hv hvc)
    obtain ⟨ob', oj', hrec⟩ := ih c r ob1 oj1 evs
      (fun g' hg' v hv hvc => hgood g' (by simp [hg']) v hv hvc)
    refine ⟨ob', oj', ?_⟩
    simp only [doGroups, hu]
    exact hrec

/-! ## Claim theorems (first batch) -/

/-- Claim C1 (code bug): the spec says that when `A`'s digest mismatches,
`checkAndUpdate` re-scans `A`'s text for include names and stores them as
`A`'s direct dependencies, so that a later change to an included `B`
flips `checkAndUpdate(A)` to "changed".  The code instead passes the
file's PATH (line 151) — not its text — to `append_cfile_deps` (line
162).  Conjunct 1: scanning `a.c`'s TEXT does find `b.h`.  Conjunct 2:
the actual call stores an empty dependency list.  Conjunct 3: after
modifying `b.h`, the next `checkAndUpdate("a.c")` still reports matched
(`true`), contradicting the claimed change propagation. -/
theorem C1_path_scanned_not_content :
    append_cfile_deps fsC1a "bp" "#include \"b.h\"\n" [] = ["b.h"] ∧
    check_and_update_hash_and_deps (fun s => s) fsC1a "bp" 4 [] "a.c" =
      some (false, cC1) ∧
    check_and_update_hash_and_deps (fun s => s) fsC1b "bp" 4 cC1 "a.c" =
      some (true, cC1) :=
  ⟨by decide, by decide, by decide⟩

/-- Claim C3 (code bug): line 81 tests the misspelled environment key
"LDLAGS", so a set `LDFLAGS` variable is ignored by
`getBuilderLDFLAGS`, asymmetrically to `getBuilderCFLAGS` which does
honour `CFLAGS` (lines 69-70).  Conjunct 1: with `LDFLAGS` set, its value
is not appended.  Conjunct 2: the symmetric `CFLAGS` appending the claim
refers to.  Conjunct 3: the misspelled key is what the code reacts to. -/
theorem C3_ldflags_env_ignored :
    getBuilderLDFLAGS [("LDFLAGS", "-Lfoo")] [] "-ldl" = ["-ldl"] ∧
    getBuilderCFLAGS [("CFLAGS", "-O1")] "-Wall" = ["-Wall", "-O1"] ∧
    getBuilderLDFLAGS [("LDLAGS", "-Lfoo")] [] "-ldl" = ["-ldl", "-Lfoo"] :=
  ⟨by decide, by decide, by decide⟩

/-- Claim C8: if the target file does not exist under the build
directory, `checkAndUpdate` returns `false` (not matched) without raising
and with the cache returned exactly as it was — no entry is read into the
result, written, or evicted. -/
theorem C8_missing_file_no_match (hash : String → String) (fs : FS) (bp : String)
    (f : Nat) (c : Cache) (bn : String)
    (h : osPathExists fs (joinPath bp bn) = false) :
    check_and_update_hash_and_deps hash fs bp (f + 1) c bn = some (false, c) := by
  simp [check_and_update_hash_and_deps, cauhdAux, h]

theorem C8_missing_file_no_match_witness :
    osPathExists ⟨[]⟩ (joinPath "bp" "a.c") = false ∧
    check_and_update_hash_and_deps (fun s => s) ⟨[]⟩ "bp" 1 [] "a.c" =
      some (false, []) :=
  ⟨by decide, C8_missing_file_no_match (fun s => s) ⟨[]⟩ "bp" 0 [] "a.c" (by decide)⟩

/-- Claim C10: the regex `includes_re` matches the opening and closing
delimiters independently (classes `["<]` and `[">]`), so the mismatched
shapes `#include "NAME>` and `#include <NAME"` extract NAME exactly as
the well-formed shapes do. -/
theorem C10_mismatched_delimiters (name tail : List Char)
    (hn : ∀ x ∈ name, notCloser x = true) :
    includesMatchLine (String.mk (incOpen '"' ++ name ++ '>' :: tail)) =
      some (String.mk name) ∧
    includesMatchLine (String.mk (incOpen '<' ++ name ++ '"' :: tail)) =
      some (String.mk name) ∧
    includesMatchLine (String.mk (incOpen '"' ++ name ++ '"' :: tail)) =
      some (String.mk name) ∧
    includesMatchLine (String.mk (incOpen '<' ++ name ++ '>' :: tail)) =
      some (String.mk name) :=
  ⟨includesMatchLine_shape '"' '>' name tail (Or.inl rfl) (by decide) hn,
   includesMatchLine_shape '<' '"' name tail (Or.inr rfl) (by decide) hn,
   includesMatchLine_shape '"' '"' name tail (Or.inl rfl) (by decide) hn,
   includesMatchLine_shape '<' '>' name tail (Or.inr rfl) (by decide) hn⟩

/-- Claim C4 counterexample: with the failing unit's file absent and its
basename never cached, line 153 returns False without creating a cache
entry, the compile fails, and line 243's `srcmd5.pop(bn)` raises
`KeyError` — `build()` terminates with an uncaught exception instead of
returning failure with the entry evicted, contradicting the claim as
universally stated. -/
theorem C4_missing_entry_pop_raises :
    build ctxC4 1 wC4 =
      some (.exn, wC4,
        [BEvent.compile "a.c" ["cc", "-c", "a.c", "-o", "a.o", "-O2"]]) :=
  by decide

/-- Claim C4 (amended): provided the failing unit's cache entry is
present when the compile failure is handled (which holds whenever its
source file exists under the build directory): if the build reaches unit
`u`, `checkAndUpdate` reports "changed", and `u`'s compilation exits
non-zero, then `build` returns failure immediately — the event trace ends
at `u`'s compile invocation, so no later unit is compiled and no link is
attempted — the unit's entry (and only that entry) is evicted by the
failure handling, and every other key's binding is exactly as the check
left it.  The cache is a Python dict, so its keys are assumed distinct. -/
theorem C4_single_eviction (ctx : BuildCtx) (fuel : Nat) (w : World)
    (cfl lfl : List String) (evs0 : List BEvent)
    (pre post : List CUnit) (u : CUnit)
    (c c' c'' : Cache) (r : Bool) (ob oj : List String) (ev : List BEvent)
    (hflags : resolveFlags ctx = (some (cfl, lfl), evs0))
    (hloc : ctx.locations = [pre ++ u :: post])
    (hpre : doUnits ctx cfl fuel w.fs pre w.srcmd5
        (!osPathExists w.fs (joinPath ctx.buildpath ctx.binName)) [] [] evs0 =
      some (.cont c r ob oj ev))
    (hc : pyEndsWith u.cfile ".c" = true)
    (hchk : check_and_update_hash_and_deps ctx.hash w.fs ctx.buildpath fuel c
        (pyBasename u.cfile) = some (false, c'))
    (hst : ctx.compileStatus u.cfile ≠ 0)
    (hpop : cachePop c' (pyBasename u.cfile) = some c'')
    (hnd : (c'.map Prod.fst).Nodup) :
    build ctx fuel w =
      some (.ok false, { w with srcmd5 := c'' },
        ev ++ [BEvent.compile u.cfile
          ([ctx.compiler, "-c", u.cfile, "-o", pySplitextRoot u.cfile ++ ".o", "-O2"]
            ++ cfl ++ ctx.shlexSplit u.cflags)]) ∧
    cacheGet c'' (pyBasename u.cfile) = none ∧
    (∀ k, k ≠ pyBasename u.cfile → cacheGet c'' k = cacheGet c' k) := by
  have hstb : (ctx.compileStatus u.cfile != 0) = true := by
    simpa using hst
  refine ⟨?_, cachePop_get_self c' (pyBasename u.cfile) c'' hpop hnd,
    fun k hk => cachePop_get_ne c' (pyBasename u.cfile) k c'' hpop hk⟩
  have hunits : doUnits ctx cfl fuel w.fs (pre ++ u :: post) w.srcmd5
      (!osPathExists w.fs (joinPath ctx.buildpath ctx.binName)) [] [] evs0 =
      some (.compFail c''
        (ev ++ [BEvent.compile u.cfile
          ([ctx.compiler, "-c", u.cfile, "-o", pySplitextRoot u.cfile ++ ".o", "-O2"]
            ++ cfl ++ ctx.shlexSplit u.cflags)])) := by
    rw [doUnits_append, hpre]
    simp only [doUnits, hc, if_pos, hchk, Bool.false_eq_true, if_false, hstb, hpop]
  simp only [build, hflags, hloc, doGroups, hunits]

theorem C4_single_eviction_witness :
    (resolveFlags ctxC4 = (some ([], []), []) ∧
     check_and_update_hash_and_deps ctxC4.hash ⟨[("bp/a.c", "X")]⟩ ctxC4.buildpath 1
        [] "a.c" = some (false, [("a.c", ("X", []))]) ∧
     cachePop [("a.c", ("X", []))] "a.c" = some []) ∧
    build ctxC4 1 ⟨⟨[("bp/a.c", "X")]⟩, [], none⟩ =
      some (.ok false, ⟨⟨[("bp/a.c", "X")]⟩, [], none⟩,
        [BEvent.compile "a.c" ["cc", "-c", "a.c", "-o", "a.o", "-O2"]]) ∧
    cacheGet [] "a.c" = none :=
  ⟨⟨by decide, by decide, by decide⟩,
   by
    have h := C4_single_eviction ctxC4 1 ⟨⟨[("bp/a.c", "X")]⟩, [], none⟩
      [] [] [] [] [] ⟨"a.c", ""⟩ [] [("a.c", ("X", []))] [] true [] [] []
      (by decide) (by decide) (by decide) (by decide) (by decide) (by decide)
      (by decide) (by decide)
    exact ⟨by simpa using h.1, h.2.1⟩⟩

/-- Claim C7: the relink decision is initialized to the negation of
"artifact file exists" (line 209).  Part 1: if the artifact is absent
when `build` starts and the call returns success, the linker was invoked
— even when every per-unit check matched.  Part 2: if the artifact exists
and no unit was compiled (every per-unit check reported matched — a
non-matching unit always produces a compile invocation), the link step is
skipped. -/
theorem C7_relink_decision (ctx : BuildCtx) (fuel : Nat) (w : World)
    (res : BRes) (w1 : World) (ev : List BEvent)
    (h : build ctx fuel w = some (res, w1, ev)) :
    (osPathExists w.fs (joinPath ctx.buildpath ctx.binName) = false →
      res = .ok true → ∃ argv, BEvent.link argv ∈ ev) ∧
    (osPathExists w.fs (joinPath ctx.buildpath ctx.binName) = true →
      noCompileEvs ev = true → noLinkEvs ev = true) := by
  rcases hrf : resolveFlags ctx with ⟨fo, evs0⟩
  have hevs0 : evs0 = [] ∨ evs0 = [BEvent.sysrootQuery sysrootQueryArgv] := by
    have h0 := resolveFlags_evs ctx
    rw [hrf] at h0
    simpa using h0
  have hnl0 : noLinkEvs evs0 = true := by
    rcases hevs0 with h0 | h0 <;> subst h0 <;> rfl
  constructor
  · intro habs hres
    subst hres
    cases fo with
    | none => simp only [build, hrf] at h; simp at h
    | some fl =>
      obtain ⟨cfl, lfl⟩ := fl
      simp only [build, hrf] at h
      rw [habs] at h
      simp only [Bool.not_false] at h
      cases hdg : doGroups ctx cfl fuel w.fs ctx.locations w.srcmd5 true [] [] evs0 with
      | none => rw [hdg] at h; simp at h
      | some out =>
        rw [hdg] at h
        cases out with
        | compFail c ev' => simp at h
        | keyErr c ev' => simp at h
        | cont c r obn obj ev' =>
          have hr : r = true :=
            doGroups_relink_mono ctx cfl fuel w.fs ctx.locations _ _ _ _ _ _ _ _ _ hdg
          subst hr
          simp only [if_pos] at h
          cases hlr : ctx.linkResult with
          | none => rw [hlr] at h; simp at h
          | some bytes =>
            rw [hlr] at h
            simp only [Option.some.injEq, Prod.mk.injEq] at h
            refine ⟨[ctx.linker] ++ obj ++ ["-o", joinPath ctx.buildpath ctx.binName]
              ++ lfl, ?_⟩
            rw [← h.2.2]
            simp
  · intro hpres hnc
    cases fo with
    | none =>
      simp only [build, hrf, Option.some.injEq, Prod.mk.injEq] at h
      rw [← h.2.2]
      exact hnl0
    | some fl =>
      obtain ⟨cfl, lfl⟩ := fl
      simp only [build, hrf] at h
      rw [hpres] at h
      simp only [Bool.not_true] at h
      cases hdg : doGroups ctx cfl fuel w.fs ctx.locations w.srcmd5 false [] [] evs0 with
      | none => rw [hdg] at h; simp at h
      | some out =>
        rw [hdg] at h
        obtain ⟨t, ht, hallc⟩ :=
          doGroups_evs_extend ctx cfl fuel w.fs ctx.locations _ _ _ _ _ _ hdg
        have hnlout : noLinkEvs (loopEvs out) = true := by
          rw [ht]
          simp only [noLinkEvs, List.all_append, Bool.and_eq_true]
          exact ⟨hnl0, compile_all_not_link t hallc⟩
        cases out with
        | compFail c ev' =>
          simp only [Option.some.injEq, Prod.mk.injEq] at h
          rw [← h.2.2]
          simpa [loopEvs] using hnlout
        | keyErr c ev' =>
          simp only [Option.some.injEq, Prod.mk.injEq] at h
          rw [← h.2.2]
          simpa [loopEvs] using hnlout
        | cont c r obn obj ev' =>
          by_cases hr : r = true
          · subst hr
            simp only [if_pos] at h
            have hev' : ∃ argvL, ev = ev' ++ [BEvent.link argvL] := by
              cases hlr : ctx.linkResult with
              | none =>
                rw [hlr] at h
                simp only [Option.some.injEq, Prod.mk.injEq] at h
                exact ⟨_, h.2.2.symm⟩
              | some bytes =>
                rw [hlr] at h
                simp only [Option.some.injEq, Prod.mk.injEq] at h
                exact ⟨_, h.2.2.symm⟩
            obtain ⟨argvL, hevL⟩ := hev'
            have hnc' : noCompileEvs ev' = true := by
              rw [hevL] at hnc
              simp only [noCompileEvs, List.all_append, Bool.and_eq_true] at hnc
              exact hnc.1
            have hcontra :=
              doGroups_relink_of_noCompile ctx cfl fuel w.fs ctx.locations
                _ _ _ _ _ _ _ _ _ _ hdg hnc'
            simp at hcontra
          · have hrf' : r = false := by simpa using hr
            subst hrf'
            simp only [Bool.false_eq_true, if_false, Option.some.injEq,
              Prod.mk.injEq] at h
            rw [← h.2.2]
            simpa [loopEvs] using hnlout

/-- Claim C6: after any successful `build` (relinked or not), the
in-memory fingerprint and the persisted fingerprint file both hold the
Content Hasher's digest of the bytes actually present in the artifact
file at its fixed path, and `GetBinaryMD5` returns that digest.  The
hypothesis keeps the artifact name distinct from the fingerprint file's
fixed name (they share the build directory). -/
theorem C6_fingerprint_correct (ctx : BuildCtx) (fuel : Nat) (w : World)
    (w1 : World) (ev : List BEvent)
    (hname : ctx.binName ≠ "lastbuildPLC.md5")
    (h : build ctx fuel w = some (.ok true, w1, ev)) :
    ∃ bytes, fsRead w1.fs (joinPath ctx.buildpath ctx.binName) = some bytes ∧
      w1.md5key = some (ctx.hash bytes) ∧
      fsRead w1.fs (md5FileName ctx.buildpath) = some (ctx.hash bytes) ∧
      GetBinaryMD5 ctx.buildpath w1 = some (ctx.hash bytes) := by
  have hne : md5FileName ctx.buildpath ≠ joinPath ctx.buildpath ctx.binName := by
    unfold md5FileName
    intro he
    exact hname (joinPath_inj_right _ _ _ he).symm
  rcases hrf : resolveFlags ctx with ⟨fo, evs0⟩
  cases fo with
  | none => simp only [build, hrf] at h; simp at h
  | some fl =>
    obtain ⟨cfl, lfl⟩ := fl
    simp only [build, hrf] at h
    cases hdg : doGroups ctx cfl fuel w.fs ctx.locations w.srcmd5
        (!osPathExists w.fs (joinPath ctx.buildpath ctx.binName)) [] [] evs0 with
    | none => rw [hdg] at h; simp at h
    | some out =>
      rw [hdg] at h
      cases out with
      | compFail c ev' => simp at h
      | keyErr c ev' => simp at h
      | cont c r obn obj ev' =>
        by_cases hr : r = true
        · subst hr
          simp only [if_pos] at h
          cases hlr : ctx.linkResult with
          | none => rw [hlr] at h; simp at h
          | some bytes =>
            rw [hlr] at h
            dsimp only at h
            rw [fsRead_fsWrite_self] at h
            simp only [Option.getD_some, Option.some.injEq, Prod.mk.injEq,
              true_and] at h
            obtain ⟨hw1, hev⟩ := h
            subst hw1
            refine ⟨bytes, ?_, ?_, ?_, ?_⟩
            · dsimp only
              rw [fsRead_fsWrite_ne _ _ _ _ (Ne.symm hne), fsRead_fsWrite_self]
            · rfl
            · dsimp only
              rw [fsRead_fsWrite_self]
            · rfl
        · have hrf2 : r = false := by simpa using hr
          subst hrf2
          simp only [Bool.false_eq_true, if_false] at h
          by_cases hex : osPathExists w.fs (joinPath ctx.buildpath ctx.binName) = true
          · rw [osPathExists] at hex
            cases hread : fsRead w.fs (joinPath ctx.buildpath ctx.binName) with
            | none => rw [hread] at hex; simp at hex
            | some bytes =>
              rw [hread] at h
              simp only [Option.getD_some, Option.some.injEq, Prod.mk.injEq,
                true_and] at h
              obtain ⟨hw1, hev⟩ := h
              subst hw1
              refine ⟨bytes, ?_, ?_, ?_, ?_⟩
              · dsimp only
                rw [fsRead_fsWrite_ne _ _ _ _ (Ne.symm hne)]
                exact hread
              · rfl
              · dsimp only
                rw [fsRead_fsWrite_self]
              · rfl
          · have hex' : osPathExists w.fs (joinPath ctx.buildpath ctx.binName) = false := by
              simpa using hex
            rw [hex'] at hdg
            simp only [Bool.not_false] at hdg
            have hcontra :=
              doGroups_relink_mono ctx cfl fuel w.fs ctx.locations _ _ _ _ _ _ _ _ _ hdg
            simp at hcontra

/-- Claim C5: if a first `build` succeeded and nothing changed
afterwards, a second `build` performs zero compiler invocations and zero
linker invocations, returns success, and records the same artifact
digest.  Sanity hypotheses restricting to real configurations: every
compilable unit's source file exists and the joined path of its basename
does not itself parse as an include directive (`goodUnit` — real paths
never do; cf. the path-scan defect of line 162); every dependency list
already stored in the cache is empty (any state the code itself reaches
from a fresh instance has this form, again by the line-162 path scan);
and no unit basename collides with the artifact name or the fingerprint
file name, which live in the same directory. -/
theorem C5_idempotent_second_build (ctx : BuildCtx) (f : Nat) (w w1 : World)
    (ev1 : List BEvent)
    (hgood : ∀ g ∈ ctx.locations, ∀ u ∈ g, goodUnit w.fs ctx.buildpath u = true)
    (hde : cacheDepsEmpty w.srcmd5 = true)
    (hnames : ∀ g ∈ ctx.locations, ∀ u ∈ g, pyEndsWith u.cfile ".c" = true →
      pyBasename u.cfile ≠ ctx.binName ∧ pyBasename u.cfile ≠ "lastbuildPLC.md5")
    (hbn : ctx.binName ≠ "lastbuildPLC.md5")
    (h1 : build ctx (f + 1) w = some (.ok true, w1, ev1)) :
    ∃ w2 ev2, build ctx (f + 1) w1 = some (.ok true, w2, ev2) ∧
      noCompileEvs ev2 = true ∧ noLinkEvs ev2 = true ∧
      w2.md5key = w1.md5key := by
  have hne : md5FileName ctx.buildpath ≠ joinPath ctx.buildpath ctx.binName := by
    unfold md5FileName
    intro he
    exact hbn (joinPath_inj_right _ _ _ he).symm
  rcases hrf : resolveFlags ctx with ⟨fo, evs0⟩
  have hevs0 : evs0 = [] ∨ evs0 = [BEvent.sysrootQuery sysrootQueryArgv] := by
    have h0 := resolveFlags_evs ctx
    rw [hrf] at h0
    simpa using h0
  have hnc0 : noCompileEvs evs0 = true := by
    rcases hevs0 with h0 | h0 <;> subst h0 <;> rfl
  have hnl0 : noLinkEvs evs0 = true := by
    rcases hevs0 with h0 | h0 <;> subst h0 <;> rfl
  cases fo with
  | none => simp only [build, hrf] at h1; simp at h1
  | some fl =>
    obtain ⟨cfl, lfl⟩ := fl
    simp only [build, hrf] at h1
    cases hdg : doGroups ctx cfl (f + 1) w.fs ctx.locations w.srcmd5
        (!osPathExists w.fs (joinPath ctx.buildpath ctx.binName)) [] [] evs0 with
    | none => rw [hdg] at h1; simp at h1
    | some out =>
      rw [hdg] at h1
      cases out with
      | compFail c ev' => simp at h1
      | keyErr c ev' => simp at h1
      | cont c1 r1 obn obj ev' =>
        obtain ⟨gA, gB, gC⟩ := doGroups_run1 ctx cfl f w.fs ctx.locations
          w.srcmd5 _ [] [] evs0 c1 r1 obn obj ev' hdg hgood hde
        have hpaths : ∀ g ∈ ctx.locations, ∀ u ∈ g, pyEndsWith u.cfile ".c" = true →
            joinPath ctx.buildpath (pyBasename u.cfile) ≠
              joinPath ctx.buildpath ctx.binName ∧
            joinPath ctx.buildpath (pyBasename u.cfile) ≠
              md5FileName ctx.buildpath := by
          intro g hg u hu huc
          obtain ⟨hn1, hn2⟩ := hnames g hg u hu huc
          refine ⟨fun he => hn1 (joinPath_inj_right _ _ _ he), fun he => ?_⟩
          rw [md5FileName] at he
          exact hn2 (joinPath_inj_right _ _ _ he)
        have hexg : ∀ g ∈ ctx.locations, ∀ u ∈ g, pyEndsWith u.cfile ".c" = true →
            osPathExists w.fs (joinPath ctx.buildpath (pyBasename u.cfile)) = true := by
          intro g hg u hu huc
          have := hgood g hg u hu
          simp only [goodUnit, huc, Bool.not_true, Bool.false_or, Bool.and_eq_true,
            decide_eq_true_eq] at this
          exact this.2
        by_cases hr1 : r1 = true
        · subst hr1
          simp only [if_pos] at h1
          cases hlr : ctx.linkResult with
          | none => rw [hlr] at h1; simp at h1
          | some bytes =>
            rw [hlr] at h1
            dsimp only at h1
            rw [fsRead_fsWrite_self] at h1
            simp only [Option.getD_some, Option.some.injEq, Prod.mk.injEq,
              true_and] at h1
            obtain ⟨hw1, hev⟩ := h1
            subst hw1
            have hrbin : fsRead
                (fsWrite (fsWrite w.fs (joinPath ctx.buildpath ctx.binName) bytes)
                  (md5FileName ctx.buildpath) (ctx.hash bytes))
                (joinPath ctx.buildpath ctx.binName) = some bytes := by
              rw [fsRead_fsWrite_ne _ _ _ _ (Ne.symm hne), fsRead_fsWrite_self]
            have hex2 : osPathExists
                (fsWrite (fsWrite w.fs (joinPath ctx.buildpath ctx.binName) bytes)
                  (md5FileName ctx.buildpath) (ctx.hash bytes))
                (joinPath ctx.buildpath ctx.binName) = true := by
              rw [osPathExists, hrbin]
              rfl
            have hfresh2 : ∀ g ∈ ctx.locations, ∀ u ∈ g,
                pyEndsWith u.cfile ".c" = true →
                entryFresh ctx.hash
                  (fsWrite (fsWrite w.fs (joinPath ctx.buildpath ctx.binName) bytes)
                    (md5FileName ctx.buildpath) (ctx.hash bytes))
                  ctx.buildpath c1 (pyBasename u.cfile) ∧
                osPathExists
                  (fsWrite (fsWrite w.fs (joinPath ctx.buildpath ctx.binName) bytes)
                    (md5FileName ctx.buildpath) (ctx.hash bytes))
                  (joinPath ctx.buildpath (pyBasename u.cfile)) = true := by
              intro g hg u hu huc
              obtain ⟨hp1, hp2⟩ := hpaths g hg u hu huc
              have hrw : fsRead
                  (fsWrite (fsWrite w.fs (joinPath ctx.buildpath ctx.binName) bytes)
                    (md5FileName ctx.buildpath) (ctx.hash bytes))
                  (joinPath ctx.buildpath (pyBasename u.cfile)) =
                  fsRead w.fs (joinPath ctx.buildpath (pyBasename u.cfile)) := by
                rw [fsRead_fsWrite_ne _ _ _ _ hp2, fsRead_fsWrite_ne _ _ _ _ hp1]
              constructor
              · show cacheGet c1 (pyBasename u.cfile) = _
                rw [hrw]
                exact gB g hg u hu huc
              · rw [osPathExists, hrw]
                have hx := hexg g hg u hu huc
                rw [osPathExists] at hx
                exact hx
            obtain ⟨ob2, oj2, hdg2⟩ := doGroups_run2 ctx cfl f
              (fsWrite (fsWrite w.fs (joinPath ctx.buildpath ctx.binName) bytes)
                (md5FileName ctx.buildpath) (ctx.hash bytes))
              ctx.locations c1 false [] [] evs0 hfresh2
            refine ⟨⟨fsWrite
                (fsWrite (fsWrite w.fs (joinPath ctx.buildpath ctx.binName) bytes)
                  (md5FileName ctx.buildpath) (ctx.hash bytes))
                (md5FileName ctx.buildpath) (ctx.hash bytes),
                c1, some (ctx.hash bytes)⟩, evs0, ?_, hnc0, hnl0, rfl⟩
            simp only [build, hrf]
            rw [hex2]
            simp only [Bool.not_true]
            rw [hdg2]
            dsimp only
            simp only [Bool.false_eq_true, if_false]
            rw [hrbin]
            simp only [Option.getD_some]
        · have hr1f : r1 = false := by simpa using hr1
          subst hr1f
          simp only [Bool.false_eq_true, if_false] at h1
          by_cases hex : osPathExists w.fs (joinPath ctx.buildpath ctx.binName) = true
          · cases hread : fsRead w.fs (joinPath ctx.buildpath ctx.binName) with
            | none => rw [osPathExists, hread] at hex; simp at hex
            | some bytes =>
              rw [hread] at h1
              simp only [Option.getD_some, Option.some.injEq, Prod.mk.injEq,
                true_and] at h1
              obtain ⟨hw1, hev⟩ := h1
              subst hw1
              have hrbin : fsRead
                  (fsWrite w.fs (md5FileName ctx.buildpath) (ctx.hash bytes))
                  (joinPath ctx.buildpath ctx.binName) = some bytes := by
                rw [fsRead_fsWrite_ne _ _ _ _ (Ne.symm hne)]
                exact hread
              have hex2 : osPathExists
                  (fsWrite w.fs (md5FileName ctx.buildpath) (ctx.hash bytes))
                  (joinPath ctx.buildpath ctx.binName) = true := by
                rw [osPathExists, hrbin]
                rfl
              have hfresh2 : ∀ g ∈ ctx.locations, ∀ u ∈ g,
                  pyEndsWith u.cfile ".c" = true →
                  entryFresh ctx.hash
                    (fsWrite w.fs (md5FileName ctx.buildpath) (ctx.hash bytes))
                    ctx.buildpath c1 (pyBasename u.cfile) ∧
                  osPathExists
                    (fsWrite w.fs (md5FileName ctx.buildpath) (ctx.hash bytes))
                    (joinPath ctx.buildpath (pyBasename u.cfile)) = true := by
                intro g hg u hu huc
                obtain ⟨hp1, hp2⟩ := hpaths g hg u hu huc
                have hrw : fsRead
                    (fsWrite w.fs (md5FileName ctx.buildpath) (ctx.hash bytes))
                    (joinPath ctx.buildpath (pyBasename u.cfile)) =
                    fsRead w.fs (joinPath ctx.buildpath (pyBasename u.cfile)) := by
                  rw [fsRead_fsWrite_ne _ _ _ _ hp2]
                constructor
                · show cacheGet c1 (pyBasename u.cfile) = _
                  rw [hrw]
                  exact gB g hg u hu huc
                · rw [osPathExists, hrw]
                  have hx := hexg g hg u hu huc
                  rw [osPathExists] at hx
                  exact hx
              obtain ⟨ob2, oj2, hdg2⟩ := doGroups_run2 ctx cfl f
                (fsWrite w.fs (md5FileName ctx.buildpath) (ctx.hash bytes))
                ctx.locations c1 false [] [] evs0 hfresh2
              refine ⟨⟨fsWrite
                  (fsWrite w.fs (md5FileName ctx.buildpath) (ctx.hash bytes))
                  (md5FileName ctx.buildpath) (ctx.hash bytes),
                  c1, some (ctx.hash bytes)⟩, evs0, ?_, hnc0, hnl0, rfl⟩
              simp only [build, hrf]
              rw [hex2]
              simp only [Bool.not_true]
              rw [hdg2]
              dsimp only
              simp only [Bool.false_eq_true, if_false]
              rw [hrbin]
              simp only [Option.getD_some]
          · have hex' : osPathExists w.fs (joinPath ctx.buildpath ctx.binName) =
                false := by simpa using hex
            rw [hex'] at hdg
            simp only [Bool.not_false] at hdg
            have hcontra := doGroups_relink_mono ctx cfl (f + 1) w.fs ctx.locations
              _ _ _ _ _ _ _ _ _ hdg
            simp at hcontra

/-- Claim C9: when `checkAndUpdate` finds the stored digest equal to the
file's current digest, it writes nothing for that basename — the call
reduces to the recursion over the previously recorded dependency list
`ds`, started from the UNMODIFIED cache (conjunct 1) — and the entry for
that basename is still untouched after the whole recursive run
(conjunct 2).  Writes to a `DependencyRecord`'s digest happen only in the
mismatch branch (line 164); eviction on compilation failure is the
separate `pop` at line 243. -/
theorem C9_digest_write_discipline (hash : String → String) (fs : FS) (bp : String)
    (f : Nat) (c : Cache) (bn : String) (h0 : String) (ds : List String)
    (hget : cacheGet c bn = some (h0, ds))
    (hdig : h0 = hash ((fsRead fs (joinPath bp bn)).getD ""))
    (hex : osPathExists fs (joinPath bp bn) = true) :
    check_and_update_hash_and_deps hash fs bp (f + 1) c bn =
      andFoldCheck (cauhdAux hash fs bp f) c ds true ∧
    (∀ b c', check_and_update_hash_and_deps hash fs bp (f + 1) c bn = some (b, c') →
      cacheGet c' bn = some (h0, ds)) := by
  have hm : ((cacheGet c bn).map (·.1) ==
      some (hash ((fsRead fs (joinPath bp bn)).getD ""))) = true := by
    rw [hget]
    simp [hdig]
  have hstep : check_and_update_hash_and_deps hash fs bp (f + 1) c bn =
      andFoldCheck (cauhdAux hash fs bp f) c ds true := by
    rw [check_and_update_hash_and_deps, cauhdAux_succ, if_pos hex, if_pos hm, hget]
    simp
  refine ⟨hstep, fun b c' hrun => ?_⟩
  rw [hstep] at hrun
  exact andFoldCheck_preserve _ _ (cauhd_preserve hash fs bp bn h0 ds hdig f)
    ds c true b c' hget hrun

theorem C9_digest_write_discipline_witness :
    (cacheGet [("a.c", ("X", []))] "a.c" = some ("X", []) ∧
     osPathExists ⟨[("bp/a.c", "X")]⟩ (joinPath "bp" "a.c") = true) ∧
    check_and_update_hash_and_deps (fun s => s) ⟨[("bp/a.c", "X")]⟩ "bp" 1
        [("a.c", ("X", []))] "a.c" =
      andFoldCheck (cauhdAux (fun s => s) ⟨[("bp/a.c", "X")]⟩ "bp" 0)
        [("a.c", ("X", []))] [] true :=
  ⟨⟨by decide, by decide⟩,
   (C9_digest_write_discipline (fun s => s) ⟨[("bp/a.c", "X")]⟩ "bp" 0
      [("a.c", ("X", []))] "a.c" "X" [] (by decide) (by decide) (by decide)).1⟩

/-- Claim C2 counterexample: the claim says the CONFIGURED compiler
executable is invoked with the print-sysroot query.  In fact line 192
invokes a hardcoded `arm-unknown-linux-gnueabihf-gcc`: with the
configured compiler "gcc", the build's event trace contains the
hardcoded query argv and no query invoking "gcc". -/
theorem C2_configured_compiler_not_queried :
    build ctxC2 1 wC2 =
      some (.ok true,
        ⟨⟨[("bp/lastbuildPLC.md5", "B"), ("bp/p.bin", "B")]⟩, [], some "B"⟩,
        [BEvent.sysrootQuery sysrootQueryArgv,
         BEvent.link ["ld", "-o", "bp/p.bin"]]) ∧
    ctxC2.compiler = "gcc" ∧
    sysrootQueryArgv = ["arm-unknown-linux-gnueabihf-gcc", "-print-sysroot"] ∧
    BEvent.sysrootQuery ["gcc", "-print-sysroot"] ∉
      [BEvent.sysrootQuery sysrootQueryArgv, BEvent.link ["ld", "-o", "bp/p.bin"]] :=
  ⟨by decide, by decide, by decide, by decide⟩

/-- Claim C2 (amended): when the assembled compiler- or linker-flag
string contains the sysroot placeholder, the hardcoded sysroot query is
run.  (1) If it fails (non-zero exit or missing executable), `build`
returns failure at once: the query is the only external process event —
no compilation, no link — and the state is untouched.  (2) If it
succeeds, the resolved flag lists are exactly the shlex token lists of
the two flag strings with every occurrence of the placeholder replaced by
the stripped query output, in the compiler and the linker list
independently. -/
theorem C2_sysroot_resolution (ctx : BuildCtx) (fuel : Nat) (w : World)
    (hpat : (strHasSub sysrootPattern (builderCFLAGSstr ctx)
             || strHasSub sysrootPattern (builderLDFLAGSstr ctx)) = true) :
    (ctx.sysrootOut = none →
      build ctx fuel w =
        some (.ok false, w, [BEvent.sysrootQuery sysrootQueryArgv])) ∧
    (∀ out, ctx.sysrootOut = some out →
      resolveFlags ctx =
        (some ((ctx.shlexSplit (builderCFLAGSstr ctx)).map
                 (fun s => strReplace s sysrootPattern (pyStrip out)),
               (ctx.shlexSplit (builderLDFLAGSstr ctx)).map
                 (fun s => strReplace s sysrootPattern (pyStrip out))),
         [BEvent.sysrootQuery sysrootQueryArgv])) := by
  constructor
  · intro hnone
    have hres : resolveFlags ctx = (none, [BEvent.sysrootQuery sysrootQueryArgv]) := by
      rw [resolveFlags]
      simp only [hpat, if_pos, hnone]
    rw [build, hres]
  · intro out hsome
    rw [resolveFlags]
    simp only [hpat, hsome, if_pos]

theorem C2_sysroot_resolution_witness :
    (strHasSub sysrootPattern (builderCFLAGSstr ctxC2)
      || strHasSub sysrootPattern (builderLDFLAGSstr ctxC2)) = true ∧
    resolveFlags ctxC2 =
      (some ([], []), [BEvent.sysrootQuery sysrootQueryArgv]) :=
  ⟨by decide,
   by
    have h := (C2_sysroot_resolution ctxC2 1 wC2 (by decide)).2 "/sr\n" rfl
    simpa using h⟩

theorem C5_idempotent_second_build_witness :
    (build ctxT 2 wT = some (.ok true, wT1, evT1) ∧
     cacheDepsEmpty wT.srcmd5 = true) ∧
    (∃ w2 ev2, build ctxT 2 wT1 = some (.ok true, w2, ev2) ∧
      noCompileEvs ev2 = true ∧ noLinkEvs ev2 = true ∧
      w2.md5key = wT1.md5key) := by
  refine ⟨⟨?_, ?_⟩, ?_⟩
  · decide
  · decide
  · exact C5_idempotent_second_build ctxT 1 wT wT1 evT1 (by decide) (by decide)
      (by decide) (by decide) (by decide)

theorem C7_relink_decision_witness :
    (build ctxT 2 wT = some (.ok true, wT1, evT1) ∧
     osPathExists wT.fs (joinPath ctxT.buildpath ctxT.binName) = false) ∧
    (∃ argv, BEvent.link argv ∈ evT1) :=
  ⟨⟨by decide, by decide⟩,
   (C7_relink_decision ctxT 2 wT (.ok true) wT1 evT1 (by decide)).1 (by decide) rfl⟩

theorem C6_fingerprint_correct_witness :
    (ctxT.binName ≠ "lastbuildPLC.md5" ∧
     build ctxT 2 wT = some (.ok true, wT1, evT1)) ∧
    (∃ bytes, fsRead wT1.fs (joinPath ctxT.buildpath ctxT.binName) = some bytes ∧
      wT1.md5key = some (ctxT.hash bytes) ∧
      fsRead wT1.fs (md5FileName ctxT.buildpath) = some (ctxT.hash bytes) ∧
      GetBinaryMD5 ctxT.buildpath wT1 = some (ctxT.hash bytes)) :=
  ⟨⟨by decide, by decide⟩,
   C6_fingerprint_correct ctxT 2 wT wT1 evT1 (by decide) (by decide)⟩

theorem C10_mismatched_delimiters_witness :
    (∀ x ∈ ['b', '.', 'h'], notCloser x = true) ∧
    includesMatchLine (String.mk (incOpen '"' ++ ['b', '.', 'h'] ++ '>' :: [])) =
      some (String.mk ['b', '.', 'h']) :=
  ⟨by decide, (C10_mismatched_delimiters ['b', '.', 'h'] [] (by decide)).1⟩

end ToolchainGcc
